import Mathlib

/-!
Verification development for the cildiff comparison engine of WhimSE.

The C sources under `cildiff/src` are shallowly embedded below: pure
functions become Lean functions, the per-flavor dispatch tables become
Lean lookup functions, fallible paths (`error(EXIT_FAILURE, ...)` and
`assert`) become `Except Unit` errors.  `cmp_common.c` is provided too
(two staged copies sit after the first document separator of
`src/cildiff/src/cmp_node_defs.h`); its SHA-512 hash primitive is
embedded under the spec's collision-freedom idealization (see `HV`
below), and its `double`-rate similarity comparator is embedded
exactly, NaN included (see `CmpSim.rateDbl`).
-/

set_option maxHeartbeats 1000000

namespace Cildiff

/-- The hash primitive of `cmp_common.c` (`cmp_hash_begin` /
`cmp_hash_update` / `cmp_hash_update_string` / `cmp_hash_copy` /
`cmp_hash_finish`; the implementation, staged inside
`cmp_node_defs.h`, folds the absorbed bytes through SHA-512).  The
spec treats digest collisions "as impossible for correctness", so a
finished hash is modelled under that idealization as the
transcript of absorbed data: `str` is one `cmp_hash_update_string`
(string including its terminating NUL), `num` is one fixed-width
integer absorbed by its raw bytes, and a finished digest absorbed into
another state is the (tree-shaped) hash value itself.  A hash state is
the list of tokens absorbed so far; `cons`/`nil` encode that list once
finished.  Hash equality is transcript equality, which models
collision-freedom. -/
inductive HV where
  | str (s : String)
  | num (n : Nat)
  | nil
  | cons (hd tl : HV)
  deriving DecidableEq, Repr

namespace HV

/-- `cmp_hash_finish`: a finished digest, from the list of absorbed tokens. -/
def mkHash (tokens : List HV) : HV :=
  tokens.foldr .cons .nil

theorem mkHash_cons (t : HV) (ts : List HV) :
    mkHash (t :: ts) = .cons t (mkHash ts) := rfl

theorem mkHash_injective : Function.Injective mkHash := by
  intro l1 l2 h
  induction l1 generalizing l2 with
  | nil =>
    cases l2 with
    | nil => rfl
    | cons b bs => simp [mkHash] at h
  | cons a as ih =>
    cases l2 with
    | nil => simp [mkHash] at h
    | cons b bs =>
      simp only [mkHash_cons, cons.injEq] at h
      exact by rw [h.1, ih h.2]

/-- Injective encoding of characters into naturals. -/
def encChar (c : Char) : Nat := c.toNat

theorem encChar_injective : Function.Injective encChar := by
  intro a b h
  exact Char.eq_of_val_eq (UInt32.toNat.inj h)

/-- Injective encoding of character lists into naturals. -/
def encChars : List Char → Nat
  | [] => 0
  | c :: rest => Nat.pair (encChar c) (encChars rest) + 1

theorem encChars_injective : Function.Injective encChars := by
  intro l1 l2 h
  induction l1 generalizing l2 with
  | nil =>
    cases l2 with
    | nil => rfl
    | cons c cs => simp [encChars] at h
  | cons c cs ih =>
    cases l2 with
    | nil => simp [encChars] at h
    | cons d ds =>
      simp only [encChars, Nat.add_right_cancel_iff,
        Nat.pair_eq_pair] at h
      rw [encChar_injective h.1, ih h.2]

/-- Injective encoding of strings into naturals. -/
def encStr (s : String) : Nat := encChars s.toList

theorem encStr_injective : Function.Injective encStr := by
  intro s t h
  have h2 : s.toList = t.toList := encChars_injective h
  cases s; cases t; exact congrArg String.mk h2

/-- Injective encoding of hash values into naturals, used only to
induce a deterministic linear order on hashes (the spec specifies "a
lexicographic hash comparator ... for deterministic ordering" on
otherwise opaque digests; any fixed total order is a faithful model). -/
def enc : HV → Nat
  | .str s => Nat.pair 0 (encStr s)
  | .num n => Nat.pair 1 n
  | .nil => Nat.pair 2 0
  | .cons a b => Nat.pair 3 (Nat.pair (enc a) (enc b))

theorem enc_injective : Function.Injective enc := by
  intro x y h
  induction x generalizing y with
  | str s =>
    cases y <;> simp only [enc, Nat.pair_eq_pair] at h
    · exact congrArg HV.str (encStr_injective h.2)
    · omega
    · omega
    · omega
  | num n =>
    cases y <;> simp only [enc, Nat.pair_eq_pair] at h
    · omega
    · exact congrArg HV.num h.2
    · omega
    · omega
  | nil =>
    cases y <;> simp only [enc, Nat.pair_eq_pair] at h
    · omega
    · omega
    · rfl
    · omega
  | cons a b iha ihb =>
    cases y <;> simp only [enc, Nat.pair_eq_pair] at h
    · omega
    · omega
    · omega
    · rename_i c d
      rw [iha h.2.1, ihb h.2.2]

instance : LinearOrder HV := LinearOrder.lift' enc enc_injective

/-- `qsort(..., &cmp_hash_qsort_cmp)`: sort a list of hashes into the
deterministic hash order.  `cmp_hash_qsort_cmp` (`cmp_common.c`) is a
`memcmp` of the digest bytes — a total order on digests, deterministic
but opaque; under the collision-freedom idealization it is modelled by
the fixed total order `enc` induces.  Every theorem below depends only
on its totality and determinism, never on which order it is. -/
def sortHashes (l : List HV) : List HV :=
  List.insertionSort (· ≤ ·) l

theorem sortHashes_eq_of_perm {l1 l2 : List HV} (h : l1.Perm l2) :
    sortHashes l1 = sortHashes l2 := by
  apply List.eq_of_perm_of_sorted (r := (· ≤ · : HV → HV → Prop))
  · exact ((List.perm_insertionSort _ l1).trans h).trans
      (List.perm_insertionSort _ l2).symm
  · exact List.sorted_insertionSort _ l1
  · exact List.sorted_insertionSort _ l2

end HV

/-- `enum cil_flavor` (libsepol's `cil_flavor.h`, an external dependency):
the closed set of CIL construct kinds.  Constructors are listed for every
flavor that appears in the cildiff sources: all indices of the dispatch
tables in `cmp_data.c`, `cmp_node_defs.c` and `cmp_subset_defs.c`, plus
the flavors the code mentions without registering a rule for them
(`CIL_CONDBLOCK` at `cmp_node_defs.c`, `CIL_OP` / `CIL_CONS_OPERAND` /
`CIL_LIST` / `CIL_PARAM` in list payloads, and `CIL_NONE`). -/
inductive CilFlavor where
  | none_ | condblock | param | op | consOperand | list_
  | root | srcInfo | string_
  | avrule | avrulex | denyRule
  | call | mcro
  | perm | mapPerm | common | classcommon | class_ | classorder
  | classpermission | classpermsSet | classpermissionset | mapClass
  | classmapping | permissionx | classperms
  | bool_ | booleanif | tunable | tunableif
  | constrain | validatetrans | mlsconstrain | mlsvalidatetrans
  | block | blockabstract | blockinherit | optional_ | in_
  | context
  | defaultuser | defaultrole | defaulttype | defaultrange
  | filecon | fsuse | genfscon
  | ibpkeycon | ibendportcon
  | sens | sensalias | sensaliasactual | sensitivityorder
  | cat | catalias | cataliasactual | catorder | catset | senscat
  | level | levelrange | rangetransition
  | ipaddr | netifcon | nodecon | portcon
  | mls | handleunknown | policycap
  | role | roletype | roleattribute | roleattributeset | roleallow
  | roletransition | rolebounds
  | sid | sidorder | sidcontext
  | type_ | typealias | typealiasactual | typeattribute | typeattributeset
  | expandtypeattribute | typebounds | typeRule | nametypetransition
  | typepermissive
  | user | userrole | userattribute | userattributeset | userlevel
  | userrange | userbounds | userpfx | selinuxuser | selinuxuserdefault
  | iomemcon | ioportcon | pcidevicecon | pirqcon | devicetreecon
  deriving DecidableEq, Repr

/-- An item of a CIL expression list (`struct cil_list_item` as consumed
by `hash_cil_expr`): a string, a nested sub-list, an operator
(`CIL_OP`, whose payload is the operator enum, absorbed by its raw
bytes) or a constraint operand (`CIL_CONS_OPERAND`). -/
inductive CilExprItem where
  | op (n : Nat)
  | str (s : String)
  | sub (listFlavor : Nat) (items : List CilExprItem)
  | consOp (n : Nat)

/-- `cil_call.args_tree`: the raw parse tree of call arguments consumed
by `hash_call_args_tree` (`struct cil_tree_node` with either a string
payload or children). -/
inductive CallArgsTree where
  | mk (data : Option String) (children : List CallArgsTree)

/-- The per-flavor data payloads of `cil_internal.h` as read by the
data-hasher rules in `cmp_data.c`.  Only the fields those rules touch
are modelled; fixed-width integer/enum fields become `Nat`, strings
become `String`, `x_str`/`x` alternatives (consumed through
`hash_str_or_data`) become a pair of options, and nested anonymous
payloads are nested `CilData` values. -/
inductive CilData where
  | decl (name : String)
  | aliasactual (aliasStr actualStr : String)
  | bounds (parentStr childStr : String)
  | attributeset (attrStr : String) (strExpr : Nat × List CilExprItem)
  | ordered (listFlavor : Nat) (strs : List String)
  | str (s : String)
  | unit
  | avrule (isExtended : Bool) (ruleKind : Nat) (srcStr tgtStr : String)
      (permxStr : Option String) (permx : Option CilData)
      (classperms : List (CilFlavor × CilData))
  | deny (srcStr tgtStr : String) (classperms : List (CilFlavor × CilData))
  | call (macroStr : String) (argsTree : CallArgsTree)
  | mcro (name : String) (params : List (Nat × String))
  | classcommon (classStr commonStr : String)
  | classpermsSet (setStr : String)
  | classperms (classStr : String) (permStrs : Nat × List CilExprItem)
  | classpermissionset (setStr : String)
      (classperms : List (CilFlavor × CilData))
  | classmapping (mapClassStr mapPermStr : String)
      (classperms : List (CilFlavor × CilData))
  | permissionx (name : Option String) (kind : Nat) (objStr : String)
      (exprStr : Nat × List CilExprItem)
  | namedBool (name : String) (value : Nat)
  | condExpr (strExpr : Nat × List CilExprItem)
  | constrain (classperms : List (CilFlavor × CilData))
      (strExpr : Nat × List CilExprItem)
  | validatetrans (classStr : String) (strExpr : Nat × List CilExprItem)
  | blockabstract (blockStr : String)
  | blockinherit (blockStr : String)
  | optional (name : String)
  | inStmt (isAfter : Nat) (blockStr : String)
  | context (name : Option String) (userStr roleStr typeStr : String)
      (rangeStr : Option String) (range : Option CilData)
  | cilDefault (flavor : Nat) (object : Nat) (classStrsFlavor : Nat)
      (classStrs : List String)
  | defaultrange (objectRange : Nat) (classStrsFlavor : Nat)
      (classStrs : List String)
  | filecon (pathStr : String) (ty : Nat) (contextStr : Option String)
      (context : Option CilData)
  | fsuse (ty : Nat) (fsStr : String) (contextStr : Option String)
      (context : Option CilData)
  | genfscon (fsStr pathStr : String) (fileType : Nat)
      (contextStr : Option String) (context : Option CilData)
  | ibpkeycon (subnetPrefixStr : String) (pkeyLow pkeyHigh : Nat)
      (contextStr : Option String) (context : Option CilData)
  | ibendportcon (devNameStr : String) (port : Nat)
      (contextStr : Option String) (context : Option CilData)
  | categoryset (name : Option String) (cats : Nat × List CilExprItem)
  | senscat (sensStr : String) (cats : Nat × List CilExprItem)
  | level (name : Option String) (sensStr : String)
      (cats : Option (Nat × List CilExprItem))
  | levelrange (name : Option String) (lowStr : Option String)
      (low : Option CilData) (highStr : Option String)
      (high : Option CilData)
  | rangetransition (srcStr execStr objStr : String)
      (rangeStr : Option String) (range : Option CilData)
  | ipaddr (name : Option String) (family : Nat) (v4 v6 : Nat)
  | netifcon (interfaceStr : String) (ifContextStr : Option String)
      (ifContext : Option CilData) (packetContextStr : Option String)
      (packetContext : Option CilData)
  | nodecon (addrStr : Option String) (addr : Option CilData)
      (maskStr : Option String) (mask : Option CilData)
      (contextStr : Option String) (context : Option CilData)
  | portcon (proto : Nat) (portLow portHigh : Nat)
      (contextStr : Option String) (context : Option CilData)
  | mls (value : Nat)
  | handleunknown (handleUnknown : Nat)
  | roletype (roleStr typeStr : String)
  | roleallow (srcStr tgtStr : String)
  | roletransition (srcStr tgtStr objStr resultStr : String)
  | typeRule (ruleKind : Nat) (srcStr tgtStr objStr resultStr : String)
  | nametypetransition (srcStr tgtStr objStr nameStr resultStr : String)
  | typepermissive (typeStr : String)
  | expandtypeattribute (expand : Nat) (attrStrsFlavor : Nat)
      (attrStrs : List String)
  | userrole (userStr roleStr : String)
  | userlevel (userStr : String) (levelStr : Option String)
      (level : Option CilData)
  | userrange (userStr : String) (rangeStr : Option String)
      (range : Option CilData)
  | userpfx (userStr prefixStr : String)
  | selinuxuser (nameStr userStr : String) (rangeStr : Option String)
      (range : Option CilData)
  | iomemcon (iomemLow iomemHigh : Nat) (contextStr : Option String)
      (context : Option CilData)
  | ioportcon (ioportLow ioportHigh : Nat) (contextStr : Option String)
      (context : Option CilData)
  | pcidevicecon (dev : Nat) (contextStr : Option String)
      (context : Option CilData)
  | pirqcon (pirq : Nat) (contextStr : Option String)
      (context : Option CilData)
  | devicetreecon (path : String) (contextStr : Option String)
      (context : Option CilData)
  | sidcontext (sidStr : String) (contextStr : Option String)
      (context : Option CilData)
  | condblock (branchTrue : Bool)

/-- `enum list_order` of `cmp_data.c`. -/
inductive ListOrder where
  | unordered
  | allowUnordered
  | ordered
  deriving DecidableEq, Repr

open HV (mkHash sortHashes)

/-- Fallible map over a list (the C loops abort on the first
`error(EXIT_FAILURE)`/`assert`). -/
def exceptMap {α β : Type} (f : α → Except Unit β) :
    List α → Except Unit (List β)
  | [] => .ok []
  | x :: rest => do
      let y ← f x
      let ys ← exceptMap f rest
      .ok (y :: ys)

mutual

/-- One operand of `hash_cil_expr`'s child loop: the one-shot hash of a
string item (its bytes including NUL), the recursive hash of a
sub-list, the one-shot hash of a constraint-operand enum, and the
`error(EXIT_FAILURE)` path for any other item flavor (an operator not
in head position included).  The leading `Nat` of this mutual group is
recursion fuel, a modelling device for the C call stack: every theorem
either supplies enough fuel or assumes a successful run. -/
def hashExprItem : Nat → CilExprItem → Except Unit HV
  | 0, _ => .error ()
  | Nat.succ fu, it =>
      match it with
      | .str s => .ok (mkHash [.str s])
      | .sub f items => hashCilExpr fu f items
      | .consOp n => .ok (mkHash [.num n])
      | .op _ => .error ()

/-- `hash_cil_expr` of `cmp_data.c`: open a state with `"<expr>"`,
absorb the list flavor, absorb an optional leading operator, hash each
remaining operand, sort the operand hashes and fold them in. -/
def hashCilExpr : Nat → Nat → List CilExprItem → Except Unit HV
  | 0, _, _ => .error ()
  | Nat.succ fu, listFlavor, items =>
      let base : List HV := [.str "<expr>", .num listFlavor]
      match items with
      | [] => .ok (mkHash base)
      | .op n :: operands => do
          let hs ← exceptMap (hashExprItem fu) operands
          .ok (mkHash (base ++ [.str "<expr_op>", .num n]
            ++ sortHashes hs))
      | operands => do
          let hs ← exceptMap (hashExprItem fu) operands
          .ok (mkHash (base ++ sortHashes hs))

end

/-- `hash_cil_string_list` of `cmp_data.c`: open a state with
`"<list>"`, absorb the list flavor, strip a leading `unordered` keyword
(the C compares the item against the interned `CIL_KEY_UNORDERED`,
i.e. the string `"unordered"`; the keyword is only legal when the
caller allows it), absorb an `<unordered>`/`<ordered>` marker, then
fold in the one-shot hashes of the member strings, sorted when the
list is unordered.  (The C also aborts when a list item is not a
`CIL_STRING`; the modelled payload is a string list, so that error
path has no counterpart here.) -/
def hashCilStringList (listFlavor : Nat) (order : ListOrder)
    (strs : List String) : Except Unit HV :=
  let base : List HV := [.str "<list>", .num listFlavor]
  match strs with
  | [] => .ok (mkHash base)
  | s0 :: rest => do
      let (order, items) ←
        if s0 = "unordered" then
          match order with
          | .allowUnordered => (.ok (.unordered, rest) :
              Except Unit (ListOrder × List String))
          | _ => .error ()
        else .ok (order, s0 :: rest)
      let ordTok : HV := match order with
        | .unordered => .str "<unordered>"
        | _ => .str "<ordered>"
      let hs := items.map (fun s => mkHash [.str s])
      let hs := match order with
        | .unordered => sortHashes hs
        | _ => hs
      .ok (mkHash (base ++ [ordTok] ++ hs))

mutual

/-- `hash_call_args_tree` of `cmp_data.c`: a node is either a string
leaf (state opened with `"<string>"`, the string absorbed) or a list
node (state opened with `"<list>"`); children hashes are folded in
order.  The `assert(!cil_node->cl_head || !cil_node->data)` becomes an
error. -/
def hashCallArgsTree : Nat → CallArgsTree → Except Unit HV
  | 0, _ => .error ()
  | Nat.succ fu, .mk data children =>
      match data, children with
      | some _, _ :: _ => .error ()
      | _, _ => do
          let base : List HV := match data with
            | some s => [.str "<string>", .str s]
            | none => [.str "<list>"]
          let hs ← exceptMap (hashCallArgsTree fu) children
          .ok (mkHash (base ++ hs))

end

/-- The `flavor_name` column of the `data_defs` table in `cmp_data.c`
(`REGISTER_DATA` stringizes the rule's base name, so several flavors
share one name: `CIL_AVRULE`/`CIL_AVRULEX` → `"avrule"`,
`CIL_PERM`/`CIL_MAP_PERM` → `"perm"`, the three default-object flavors
→ `"cil_default"`).  `none` means the flavor has no entry (its `init`
is the null pointer). -/
def flavorName : CilFlavor → Option String
  | .root => some "root"
  | .srcInfo => some "src_info"
  | .string_ => some "string"
  | .avrule => some "avrule"
  | .avrulex => some "avrule"
  | .denyRule => some "deny"
  | .call => some "call"
  | .mcro => some "macro"
  | .perm => some "perm"
  | .mapPerm => some "perm"
  | .common => some "common"
  | .classcommon => some "classcommon"
  | .class_ => some "class"
  | .classorder => some "classorder"
  | .classpermission => some "classpermission"
  | .classpermsSet => some "classperms_set"
  | .classpermissionset => some "classpermissionset"
  | .mapClass => some "classmap"
  | .classmapping => some "classmapping"
  | .permissionx => some "permissionx"
  | .classperms => some "classperms"
  | .bool_ => some "boolean"
  | .booleanif => some "booleanif"
  | .tunable => some "tunable"
  | .tunableif => some "tunableif"
  | .constrain => some "constrain"
  | .validatetrans => some "validatetrans"
  | .mlsconstrain => some "mlsconstrain"
  | .mlsvalidatetrans => some "mlsvalidatetrans"
  | .block => some "block"
  | .blockabstract => some "blockabstract"
  | .blockinherit => some "blockinherit"
  | .optional_ => some "optional"
  | .in_ => some "in"
  | .context => some "context"
  | .defaultuser => some "cil_default"
  | .defaultrole => some "cil_default"
  | .defaulttype => some "cil_default"
  | .defaultrange => some "defaultrange"
  | .filecon => some "filecon"
  | .fsuse => some "fsuse"
  | .genfscon => some "genfscon"
  | .ibpkeycon => some "ibpkeycon"
  | .ibendportcon => some "ibendportcon"
  | .sens => some "sensitivity"
  | .sensalias => some "sensitivityalias"
  | .sensaliasactual => some "sensitivityaliasactual"
  | .sensitivityorder => some "sensitivityorder"
  | .cat => some "category"
  | .catalias => some "categoryalias"
  | .cataliasactual => some "categoryaliasactual"
  | .catorder => some "categoryorder"
  | .catset => some "categoryset"
  | .senscat => some "sensitivitycategory"
  | .level => some "level"
  | .levelrange => some "levelrange"
  | .rangetransition => some "rangetransition"
  | .ipaddr => some "ipaddr"
  | .netifcon => some "netifcon"
  | .nodecon => some "nodecon"
  | .portcon => some "portcon"
  | .mls => some "mls"
  | .handleunknown => some "handleunknown"
  | .policycap => some "policycap"
  | .role => some "role"
  | .roletype => some "roletype"
  | .roleattribute => some "roleattribute"
  | .roleattributeset => some "roleattributeset"
  | .roleallow => some "roleallow"
  | .roletransition => some "roletransition"
  | .rolebounds => some "rolebounds"
  | .sid => some "sid"
  | .sidorder => some "sidorder"
  | .sidcontext => some "sidcontext"
  | .type_ => some "type"
  | .typealias => some "typealias"
  | .typealiasactual => some "typealiasactual"
  | .typeattribute => some "typeattribute"
  | .typeattributeset => some "typeattributeset"
  | .expandtypeattribute => some "expandtypeattribute"
  | .typebounds => some "typebounds"
  | .typeRule => some "type_rule"
  | .nametypetransition => some "nametypetransition"
  | .typepermissive => some "typepermissive"
  | .user => some "user"
  | .userrole => some "userrole"
  | .userattribute => some "userattribute"
  | .userattributeset => some "userattributeset"
  | .userlevel => some "userlevel"
  | .userrange => some "userrange"
  | .userbounds => some "userbounds"
  | .userpfx => some "userprefix"
  | .selinuxuser => some "selinuxuser"
  | .selinuxuserdefault => some "selinuxuserdefault"
  | .iomemcon => some "iomemcon"
  | .ioportcon => some "ioportcon"
  | .pcidevicecon => some "pcidevicecon"
  | .pirqcon => some "pirqcon"
  | .devicetreecon => some "devicetreecon"
  | _ => none

/-- A fixed-width C boolean absorbed by its raw bytes. -/
def boolTok (b : Bool) : HV := .num (if b then 1 else 0)

/-- A `datum.name` that may be anonymous: the C absorbs the name if
present and a `"<anonymous::...>"` sentinel otherwise. -/
def nameTok (anon : String) : Option String → HV
  | some n => .str n
  | none => .str anon

/-- `(full_hash, partial_hash)` result of the data hasher
(`struct cmp_data`, minus the non-semantic `cil_data` back-pointer). -/
structure CmpData where
  flavor : CilFlavor
  full : HV
  part : HV
  deriving DecidableEq, Repr

mutual

/-- `cmp_data_init` of `cmp_data.c`: look the flavor up in `data_defs`
(no entry or a null `init` means `error(EXIT_FAILURE, "Encountered an
unknown node type")`, modelled as `Except.error`; there is no default
rule), open the full-hash state with the entry's flavor name, run the
rule, finish the full hash, and finish the partial state into the
partial hash when the rule snapshotted one — otherwise the partial
hash is a copy of the full hash. -/
def cmpDataInit : Nat → CilFlavor → CilData → Except Unit CmpData
  | 0, _, _ => .error ()
  | Nat.succ fu, f, d =>
      match flavorName f with
      | none => .error ()
      | some name => do
          let (full, part?) ← dataTokens fu f d
          let fullH := mkHash (.str name :: full)
          .ok { flavor := f, full := fullH,
                part := match part? with
                        | some pt => mkHash (.str name :: pt)
                        | none => fullH }

/-- `hash_str_or_data` of `cmp_data.c`: absorb the reference string if
present, otherwise recursively run the data hasher of the nested
flavor and absorb the resulting full hash.  (A null string together
with a null payload would make the C dereference null; that is an
error here.) -/
def hashStrOrData : Nat → CilFlavor → Option String → Option CilData →
    Except Unit (List HV)
  | 0, _, _, _ => .error ()
  | Nat.succ fu, f, s, d =>
      match s with
      | some str => .ok [.str str]
      | none =>
          match d with
          | some dd => do
              let c ← cmpDataInit fu f dd
              .ok [c.full]
          | none => .error ()

/-- The per-flavor rule bodies of `cmp_data.c` (the `DEFINE_DATA`
functions), for every flavor registered in `data_defs`.  The result is
the list of tokens the rule absorbs into the full-hash state after its
flavor-name prefix, together with the token prefix at the point where
the rule snapshots the state into the partial hash (`none` when the
rule takes no snapshot).  A payload not matching the shape the C rule
casts to is undefined behaviour in C and an error here. -/
def dataTokens : Nat → CilFlavor → CilData →
    Except Unit (List HV × Option (List HV))
  | 0, _, _ => .error ()
  -- Basic
  | Nat.succ fu, .root, .unit => .ok ([], none)
  | Nat.succ fu, .srcInfo, .unit => .ok ([], none)
  | Nat.succ fu, .string_, .str s => .ok ([.str s], none)
  -- Access vector rules (cmp_data_avrule_init, shared by
  -- CIL_AVRULE and CIL_AVRULEX)
  | Nat.succ fu, .avrule, .avrule e k src tgt pxs px cps =>
      avruleTokens fu e k src tgt pxs px cps
  | Nat.succ fu, .avrulex, .avrule e k src tgt pxs px cps =>
      avruleTokens fu e k src tgt pxs px cps
  | Nat.succ fu, .denyRule, .deny src tgt cps => do
      let pre : List HV := [.str src, .str tgt]
      match cps with
      | [(cf, cd)] => do
          let c ← cmpDataInit fu cf cd
          .ok (pre ++ [c.full], some pre)
      | _ => .error ()
  -- Call / macro statements
  | Nat.succ fu, .call, .call ms args => do
      let h ← hashCallArgsTree fu args
      .ok ([.str ms, h], none)
  | Nat.succ fu, .mcro, .mcro name params =>
      .ok ([.str name] ++
        (params.foldr (fun p acc => [.num p.1, .str p.2] ++ acc) []),
        some [.str name])
  -- Class and permission statements
  | Nat.succ fu, .perm, .decl n => .ok ([.str n], none)
  | Nat.succ fu, .mapPerm, .decl n => .ok ([.str n], none)
  | Nat.succ fu, .common, .decl n => .ok ([.str n], none)
  | Nat.succ fu, .classcommon, .classcommon cs coms =>
      .ok ([.str cs, .str coms], some [.str cs])
  | Nat.succ fu, .class_, .decl n => .ok ([.str n], none)
  | Nat.succ fu, .classorder, .ordered lf strs => do
      let h ← hashCilStringList lf .allowUnordered strs
      .ok ([h], some [])
  | Nat.succ fu, .classpermission, .decl n => .ok ([.str n], none)
  | Nat.succ fu, .classpermsSet, .classpermsSet s => .ok ([.str s], none)
  | Nat.succ fu, .classpermissionset, .classpermissionset s cps => do
      match cps with
      | [(cf, cd)] =>
          if cf = .classperms then do
            let c ← cmpDataInit fu .classperms cd
            .ok ([.str s, c.full], some [.str s])
          else .error ()
      | _ => .error ()
  | Nat.succ fu, .mapClass, .decl n => .ok ([.str n], none)
  | Nat.succ fu, .classmapping, .classmapping mcs mps cps => do
      let pre : List HV := [.str mcs, .str mps]
      match cps with
      | [(cf, cd)] => do
          let c ← cmpDataInit fu cf cd
          .ok (pre ++ [c.full], some pre)
      | _ => .error ()
  | Nat.succ fu, .permissionx, .permissionx name kind obj ex => do
      let pre : List HV :=
        [nameTok "<anonymous::permissionx>" name, .num kind, .str obj]
      let h ← hashCilExpr fu ex.1 ex.2
      .ok (pre ++ [h], some pre)
  | Nat.succ fu, .classperms, .classperms cs ps => do
      let h ← hashCilExpr fu ps.1 ps.2
      .ok ([.str cs, h], some [.str cs])
  -- Conditional statements
  | Nat.succ fu, .bool_, .namedBool n v =>
      .ok ([.str n, .num v], some [.str n])
  | Nat.succ fu, .booleanif, .condExpr e => do
      let h ← hashCilExpr fu e.1 e.2
      .ok ([h], some [h])
  | Nat.succ fu, .tunable, .namedBool n v =>
      .ok ([.str n, .num v], some [.str n])
  | Nat.succ fu, .tunableif, .condExpr e => do
      let h ← hashCilExpr fu e.1 e.2
      .ok ([h], some [h])
  -- Constraint statements
  | Nat.succ fu, .constrain, .constrain cps ex => do
      match cps with
      | [(cf, cd)] => do
          let c ← cmpDataInit fu cf cd
          let h ← hashCilExpr fu ex.1 ex.2
          .ok ([c.full, h], some [c.full])
      | _ => .error ()
  | Nat.succ fu, .validatetrans, .validatetrans cs ex => do
      let h ← hashCilExpr fu ex.1 ex.2
      .ok ([.str cs, h], some [.str cs])
  | Nat.succ fu, .mlsconstrain, .constrain cps ex => do
      match cps with
      | [(cf, cd)] => do
          let c ← cmpDataInit fu cf cd
          let h ← hashCilExpr fu ex.1 ex.2
          .ok ([c.full, h], some [c.full])
      | _ => .error ()
  | Nat.succ fu, .mlsvalidatetrans, .validatetrans cs ex => do
      let h ← hashCilExpr fu ex.1 ex.2
      .ok ([.str cs, h], some [.str cs])
  -- Container statements
  | Nat.succ fu, .block, .decl n => .ok ([.str n], none)
  | Nat.succ fu, .blockabstract, .blockabstract s => .ok ([.str s], none)
  | Nat.succ fu, .blockinherit, .blockinherit s => .ok ([.str s], none)
  | Nat.succ fu, .optional_, .optional n => .ok ([.str n], some [])
  | Nat.succ fu, .in_, .inStmt isAfter bs => .ok ([.num isAfter, .str bs], none)
  -- Context statement
  | Nat.succ fu, .context, .context name u r t rs rd => do
      let pre : List HV := [nameTok "<anonymous::context>" name]
      let rng ← hashStrOrData fu .levelrange rs rd
      .ok (pre ++ [.str u, .str r, .str t] ++ rng, some pre)
  -- Default object statements (cmp_data_cil_default_init, shared by
  -- CIL_DEFAULTUSER / CIL_DEFAULTROLE / CIL_DEFAULTTYPE)
  | Nat.succ fu, .defaultuser, .cilDefault fl ob lf strs => do
      let h ← hashCilStringList lf .unordered strs
      .ok ([.num fl, .num ob, h], some [.num fl, .num ob])
  | Nat.succ fu, .defaultrole, .cilDefault fl ob lf strs => do
      let h ← hashCilStringList lf .unordered strs
      .ok ([.num fl, .num ob, h], some [.num fl, .num ob])
  | Nat.succ fu, .defaulttype, .cilDefault fl ob lf strs => do
      let h ← hashCilStringList lf .unordered strs
      .ok ([.num fl, .num ob, h], some [.num fl, .num ob])
  | Nat.succ fu, .defaultrange, .defaultrange ob lf strs => do
      let h ← hashCilStringList lf .unordered strs
      .ok ([.num ob, h], some [.num ob])
  -- File labeling statements
  | Nat.succ fu, .filecon, .filecon path ty cs cd => do
      let pre : List HV := [.str path, .num ty]
      if cs.isSome || cd.isSome then do
        let ctx ← hashStrOrData fu .context cs cd
        .ok (pre ++ [.str "<context>"] ++ ctx, some pre)
      else
        .ok (pre ++ [.str "<empty_context>"], some pre)
  | Nat.succ fu, .fsuse, .fsuse ty fs cs cd => do
      let ctx ← hashStrOrData fu .context cs cd
      .ok ([.num ty, .str fs] ++ ctx, none)
  | Nat.succ fu, .genfscon, .genfscon fs path ft cs cd => do
      let pre : List HV := [.str fs, .str path, .num ft]
      let ctx ← hashStrOrData fu .context cs cd
      .ok (pre ++ ctx, some pre)
  -- Infiniband statements (note: cmp_data_ibpkeycon_init absorbs
  -- pkey_low twice and never absorbs pkey_high, exactly as the C does)
  | Nat.succ fu, .ibpkeycon, .ibpkeycon subnet lo _hi cs cd => do
      let pre : List HV := [.str subnet, .num lo, .num lo]
      let ctx ← hashStrOrData fu .context cs cd
      .ok (pre ++ ctx, some pre)
  | Nat.succ fu, .ibendportcon, .ibendportcon dev port cs cd => do
      let pre : List HV := [.str dev, .num port]
      let ctx ← hashStrOrData fu .context cs cd
      .ok (pre ++ ctx, some pre)
  -- Multi-level security labeling statements
  | Nat.succ fu, .sens, .decl n => .ok ([.str n], none)
  | Nat.succ fu, .sensalias, .decl n => .ok ([.str n], none)
  | Nat.succ fu, .sensaliasactual, .aliasactual a b =>
      .ok ([.str a, .str b], some [.str a])
  | Nat.succ fu, .sensitivityorder, .ordered lf strs => do
      let h ← hashCilStringList lf .ordered strs
      .ok ([h], some [])
  | Nat.succ fu, .cat, .decl n => .ok ([.str n], none)
  | Nat.succ fu, .catalias, .decl n => .ok ([.str n], none)
  | Nat.succ fu, .cataliasactual, .aliasactual a b =>
      .ok ([.str a, .str b], some [.str a])
  | Nat.succ fu, .catorder, .ordered lf strs => do
      let h ← hashCilStringList lf .ordered strs
      .ok ([h], some [])
  | Nat.succ fu, .catset, .categoryset name cats => do
      let pre : List HV := [nameTok "<anonymous::categoryset>" name]
      let h ← hashCilExpr fu cats.1 cats.2
      .ok (pre ++ [h], some pre)
  | Nat.succ fu, .senscat, .senscat ss cats => do
      let h ← hashCilExpr fu cats.1 cats.2
      .ok ([.str ss, h], some [.str ss])
  | Nat.succ fu, .level, .level name ss cats => do
      let pre : List HV := [nameTok "<anonymous::level>" name]
      match cats with
      | some c => do
          let h ← hashCilExpr fu c.1 c.2
          .ok (pre ++ [.str ss, h], some pre)
      | none => .ok (pre ++ [.str ss], some pre)
  | Nat.succ fu, .levelrange, .levelrange name ls ld hs hd => do
      let pre : List HV := [nameTok "<anonymous::levelrange>" name]
      let lo ← hashStrOrData fu .level ls ld
      let hi ← hashStrOrData fu .level hs hd
      .ok (pre ++ lo ++ hi, some pre)
  | Nat.succ fu, .rangetransition, .rangetransition src exec obj rs rd => do
      let pre : List HV := [.str src, .str exec, .str obj]
      let rng ← hashStrOrData fu .levelrange rs rd
      .ok (pre ++ rng, some pre)
  -- Network labeling statements
  | Nat.succ fu, .ipaddr, .ipaddr name family v4 v6 => do
      let pre : List HV := [nameTok "<anonymous::ipaddr>" name]
      if family = 2 then .ok (pre ++ [.num v4], some pre)
      else if family = 10 then .ok (pre ++ [.num v6], some pre)
      else .error ()
  | Nat.succ fu, .netifcon, .netifcon i ics icd pcs pcd => do
      let ic ← hashStrOrData fu .context ics icd
      let pc ← hashStrOrData fu .context pcs pcd
      .ok ([.str i] ++ ic ++ pc, some [.str i])
  | Nat.succ fu, .nodecon, .nodecon as ad ms md cs cd => do
      let a ← hashStrOrData fu .ipaddr as ad
      let m ← hashStrOrData fu .ipaddr ms md
      let ctx ← hashStrOrData fu .context cs cd
      .ok (a ++ m ++ ctx, some (a ++ m))
  | Nat.succ fu, .portcon, .portcon proto lo hi cs cd => do
      let pre : List HV := [.num proto, .num lo, .num hi]
      let ctx ← hashStrOrData fu .context cs cd
      .ok (pre ++ ctx, some pre)
  -- Policy configuration statements
  | Nat.succ fu, .mls, .mls v => .ok ([.num v], some [])
  | Nat.succ fu, .handleunknown, .handleunknown h => .ok ([.num h], some [])
  | Nat.succ fu, .policycap, .decl n => .ok ([.str n], none)
  -- Role statements
  | Nat.succ fu, .role, .decl n => .ok ([.str n], none)
  | Nat.succ fu, .roletype, .roletype rs ts => .ok ([.str rs, .str ts], some [.str rs])
  | Nat.succ fu, .roleattribute, .decl n => .ok ([.str n], none)
  | Nat.succ fu, .roleattributeset, .attributeset a e => do
      let h ← hashCilExpr fu e.1 e.2
      .ok ([.str a, h], some [.str a])
  | Nat.succ fu, .roleallow, .roleallow src tgt =>
      .ok ([.str src, .str tgt], some [.str src])
  | Nat.succ fu, .roletransition, .roletransition src tgt obj res =>
      .ok ([.str src, .str tgt, .str obj, .str res],
        some [.str src, .str tgt, .str obj])
  | Nat.succ fu, .rolebounds, .bounds p c => .ok ([.str p, .str c], none)
  -- SID statements
  | Nat.succ fu, .sid, .decl n => .ok ([.str n], none)
  | Nat.succ fu, .sidorder, .ordered lf strs => do
      let h ← hashCilStringList lf .ordered strs
      .ok ([h], some [])
  | Nat.succ fu, .sidcontext, .sidcontext ss cs cd => do
      let ctx ← hashStrOrData fu .context cs cd
      .ok ([.str ss] ++ ctx, some [.str ss])
  -- Type statements
  | Nat.succ fu, .type_, .decl n => .ok ([.str n], none)
  | Nat.succ fu, .typealias, .decl n => .ok ([.str n], none)
  | Nat.succ fu, .typealiasactual, .aliasactual a b =>
      .ok ([.str a, .str b], some [.str a])
  | Nat.succ fu, .typeattribute, .decl n => .ok ([.str n], none)
  | Nat.succ fu, .typeattributeset, .attributeset a e => do
      let h ← hashCilExpr fu e.1 e.2
      .ok ([.str a, h], some [.str a])
  | Nat.succ fu, .expandtypeattribute, .expandtypeattribute ex lf strs => do
      let h ← hashCilStringList lf .unordered strs
      .ok ([.num ex, h], some [.num ex])
  | Nat.succ fu, .typebounds, .bounds p c => .ok ([.str p, .str c], none)
  | Nat.succ fu, .typeRule, .typeRule k src tgt obj res =>
      .ok ([.num k, .str src, .str tgt, .str obj, .str res],
        some [.num k, .str src, .str tgt, .str obj])
  | Nat.succ fu, .nametypetransition, .nametypetransition src tgt obj nm res =>
      .ok ([.str src, .str tgt, .str obj, .str nm, .str res],
        some [.str src, .str tgt, .str obj, .str nm])
  | Nat.succ fu, .typepermissive, .typepermissive ts => .ok ([.str ts], none)
  -- User statements
  | Nat.succ fu, .user, .decl n => .ok ([.str n], none)
  | Nat.succ fu, .userrole, .userrole us rs => .ok ([.str us, .str rs], some [.str us])
  | Nat.succ fu, .userattribute, .decl n => .ok ([.str n], none)
  | Nat.succ fu, .userattributeset, .attributeset a e => do
      let h ← hashCilExpr fu e.1 e.2
      .ok ([.str a, h], some [.str a])
  | Nat.succ fu, .userlevel, .userlevel us ls ld => do
      let lv ← hashStrOrData fu .level ls ld
      .ok ([.str us] ++ lv, some [.str us])
  | Nat.succ fu, .userrange, .userrange us rs rd => do
      let rng ← hashStrOrData fu .levelrange rs rd
      .ok ([.str us] ++ rng, some [.str us])
  | Nat.succ fu, .userbounds, .bounds p c => .ok ([.str p, .str c], none)
  | Nat.succ fu, .userpfx, .userpfx us ps => .ok ([.str us, .str ps], some [.str us])
  | Nat.succ fu, .selinuxuser, .selinuxuser ns us rs rd => do
      let rng ← hashStrOrData fu .levelrange rs rd
      .ok ([.str ns, .str us] ++ rng, some [.str ns])
  | Nat.succ fu, .selinuxuserdefault, .selinuxuser _ns us rs rd => do
      let rng ← hashStrOrData fu .levelrange rs rd
      .ok ([.str us] ++ rng, some [])
  -- Xen statements
  | Nat.succ fu, .iomemcon, .iomemcon lo hi cs cd => do
      let ctx ← hashStrOrData fu .context cs cd
      .ok ([.num lo, .num hi] ++ ctx, some [.num lo, .num hi])
  | Nat.succ fu, .ioportcon, .ioportcon lo hi cs cd => do
      let ctx ← hashStrOrData fu .context cs cd
      .ok ([.num lo, .num hi] ++ ctx, some [.num lo, .num hi])
  | Nat.succ fu, .pcidevicecon, .pcidevicecon dev cs cd => do
      let ctx ← hashStrOrData fu .context cs cd
      .ok ([.num dev] ++ ctx, some [.num dev])
  | Nat.succ fu, .pirqcon, .pirqcon p cs cd => do
      let ctx ← hashStrOrData fu .context cs cd
      .ok ([.num p] ++ ctx, some [.num p])
  | Nat.succ fu, .devicetreecon, .devicetreecon path cs cd => do
      let ctx ← hashStrOrData fu .context cs cd
      .ok ([.str path] ++ ctx, some [.str path])
  | Nat.succ fu, _, _ => .error ()

/-- `cmp_data_avrule_init`: absorb `is_extended`, `rule_kind`, source
and target, snapshot the partial hash, then either the extended
permission (via `hash_str_or_data`) or the single classpermissionset
the AST guarantees (`assert(head == tail)` becomes an error). -/
def avruleTokens : Nat → Bool → Nat → String → String →
    Option String → Option CilData → List (CilFlavor × CilData) →
    Except Unit (List HV × Option (List HV))
  | 0, _, _, _, _, _, _, _ => .error ()
  | Nat.succ fu, e, k, src, tgt, pxs, px, cps => do
      let pre : List HV := [boolTok e, .num k, .str src, .str tgt]
      if e then do
        let x ← hashStrOrData fu .permissionx pxs px
        .ok (pre ++ x, some pre)
      else
        match cps with
        | [(cf, cd)] => do
            let c ← cmpDataInit fu cf cd
            .ok (pre ++ [c.full], some pre)
        | _ => .error ()

end

/-- `struct cil_tree_node` as the comparison engine consumes it: a
flavor, the per-flavor data payload, and the child list (source line
numbers are non-semantic and omitted). -/
inductive Ast where
  | mk (flavor : CilFlavor) (data : CilData) (children : List Ast)

def Ast.flavor : Ast → CilFlavor
  | .mk f _ _ => f

def Ast.data : Ast → CilData
  | .mk _ d _ => d

def Ast.children : Ast → List Ast
  | .mk _ _ c => c

/-- The shape of a flavor's entry in `node_defs` (`cmp_node_defs.c`):
`container` for the flavors registered with the `container`
init/compare, `condContainer` for the conditional containers, and
`default` for flavors with no entry (null `init` → the default
initialiser that just copies the data hasher's result). -/
inductive NodeKind where
  | container
  | condContainer
  | default
  deriving DecidableEq, Repr

def nodeKind : CilFlavor → NodeKind
  | .root => .container
  | .srcInfo => .container
  | .mcro => .container
  | .common => .container
  | .class_ => .container
  | .mapClass => .container
  | .booleanif => .condContainer
  | .tunableif => .condContainer
  | .block => .container
  | .optional_ => .container
  | .in_ => .container
  | _ => .default

/-- Whether `node_defs` registers a `sim` for the flavor
(`REGISTER_NODE_COMPARE` is present for all containers, but
`REGISTER_NODE_SIM` only for root, src-info, optional and the two
conditional containers — notably not for macro, common, class,
classmap, block or in). -/
def nodeHasSim : CilFlavor → Bool
  | .root => true
  | .srcInfo => true
  | .optional_ => true
  | .booleanif => true
  | .tunableif => true
  | _ => false

/-- The strategy column of `subset_defs` (`cmp_subset_defs.c`):
`container_single_jump_node` for root/src-info,
`container_single` for block/macro, `container_sim` for
booleanif/tunableif/optional/in, and the all-null default entry
otherwise. -/
inductive SubsetKind where
  | singleJump
  | single
  | sim
  | default
  deriving DecidableEq, Repr

def subsetKind : CilFlavor → SubsetKind
  | .root => .singleJump
  | .srcInfo => .singleJump
  | .booleanif => .sim
  | .tunableif => .sim
  | .block => .single
  | .optional_ => .sim
  | .in_ => .sim
  | .mcro => .single
  | _ => .default

/-- A member of a subset: a comparison node keyed by its full hash
(`hashtab_insert(subset->items, node->full_hash, node)`). -/
structure Memb where
  ast : Ast
  full : HV

/-- `struct cmp_subset`: the subset's flavor (taken from the node that
created it), its partial-hash key in the owning set, its members
(insertion order models the C hash-table iteration order, which is
deterministic but unspecified), and the finalized subset full hash. -/
structure Subset where
  flavor : CilFlavor
  partKey : HV
  members : List Memb
  full : HV

/-- `struct cmp_set`: subsets keyed by partial hash, plus the set-level
full hash. -/
structure SetRep where
  subsets : List Subset
  full : HV

/-- Intermediate subset before `cmp_subset_finalize`. -/
structure Group where
  flavor : CilFlavor
  partKey : HV
  members : List Memb

/-- `cmp_subset_add_node` driven from `cmp_set_create`: look up the
subset by the child's partial hash, create it (carrying the child's
flavor) if absent, and insert the child keyed by its full hash —
insertion is a no-op when the full hash already exists (silent
dedup). -/
def addMember (gs : List Group) (fl : CilFlavor) (pk fu : HV) (a : Ast) :
    List Group :=
  match gs with
  | [] => [⟨fl, pk, [⟨a, fu⟩]⟩]
  | g :: rest =>
      if g.partKey = pk then
        (if g.members.any (fun m => m.full = fu) then g
         else { g with members := g.members ++ [⟨a, fu⟩] }) :: rest
      else g :: addMember rest fl pk fu a

theorem Ast.sizeOf_children_lt (a : Ast) : sizeOf a.children < sizeOf a := by
  cases a with
  | mk f d c =>
    simp only [Ast.children, Ast.mk.sizeOf_spec]
    omega

/-- `cmp_subset_finalize` (no flavor registers a `finalize` override in
`subset_defs`, so the default always runs): one member → its full hash
verbatim; otherwise the one-shot digest of the members' full hashes
sorted lexicographically. -/
def finalizeGroup (g : Group) : Subset :=
  { flavor := g.flavor, partKey := g.partKey, members := g.members,
    full := match g.members with
            | [m] => m.full
            | ms => mkHash (sortHashes (ms.map (·.full))) }

mutual

/-- The full/partial hashes of a comparison node
(`cmp_node_create` + the per-flavor `init` of `cmp_node_defs.c`):
`container` builds the child set and digests
`data-full-hash ‖ set-full-hash` (state opened with no prefix);
`condContainer` builds a set per conditional branch and folds
`data-full-hash` then each branch marker with the branch set hash or
the `"<cond::empty>"` sentinel; the default initialiser copies the
data hasher's hashes.  Divergence: the default init returns `false`,
upon which `cmp_node_create` (cmp_node.c:26-28) overwrites
`partial_hash` with `full_hash`, discarding the data hasher's
snapshot partial for every default-init (leaf) flavor; the model
keeps the snapshot, which groups such leaves by their snapshot key
where the program groups them by full hash.  The claims settled below
are insensitive to this (their scenarios are either leaf-free,
symmetric on both sides, per-subset, or assume sub-run results as
hypotheses); it is recorded here rather than silently idealised. -/
def nodeHashes : Nat → Ast → Except Unit (HV × HV)
  | 0, _ => .error ()
  | Nat.succ fu, a =>
      match nodeKind a.flavor with
      | .container => do
          let s ← buildSet fu a.children
          let cd ← cmpDataInit fu a.flavor a.data
          .ok (mkHash [cd.full, s.full], cd.part)
      | .condContainer => do
          let cd ← cmpDataInit fu a.flavor a.data
          let (fb, tb) ← condBranches (buildSet fu) a.children none none
          let fTok : HV := match fb with
            | some s => s.full
            | none => .str "<cond::empty>"
          let tTok : HV := match tb with
            | some s => s.full
            | none => .str "<cond::empty>"
          .ok (mkHash [cd.full, .str "<cond::false>", fTok,
                       .str "<cond::true>", tTok], cd.part)
      | .default => do
          let cd ← cmpDataInit fu a.flavor a.data
          .ok (cd.full, cd.part)

/-- The branch sets of a conditional container
(`cmp_node_init_cond_container`): every child must be a
`CIL_CONDBLOCK` (assert → error); its condblock data selects the
false/true slot, a later condblock of the same branch overwriting an
earlier one, exactly as the C assignment does. -/
def condBranches (bs : List Ast → Except Unit SetRep) :
    List Ast → Option SetRep → Option SetRep →
    Except Unit (Option SetRep × Option SetRep)
  | [], fb, tb => .ok (fb, tb)
  | c :: rest, fb, tb =>
      match c.flavor, c.data with
      | .condblock, .condblock bt => do
          let s ← bs c.children
          if bt then condBranches bs rest fb (some s)
          else condBranches bs rest (some s) tb
      | _, _ => .error ()

/-- `cmp_set_create`: an empty child list yields the sentinel
`"<empty-set>"` hash and no subsets; otherwise every child is hashed
and inserted into a subset by partial hash, subsets are finalized, and
the set hash is the one-shot digest of the subset hashes sorted. -/
def buildSet : Nat → List Ast → Except Unit SetRep
  | 0, _ => .error ()
  | Nat.succ fu, children =>
      if children.isEmpty then
        .ok { subsets := [], full := mkHash [.str "<empty-set>"] }
      else do
        let gs ← buildGroups (nodeHashes fu) children []
        let subsets := gs.map finalizeGroup
        .ok { subsets := subsets,
              full := mkHash (sortHashes (subsets.map (·.full))) }

def buildGroups (nh : Ast → Except Unit (HV × HV)) :
    List Ast → List Group → Except Unit (List Group)
  | [], acc => .ok acc
  | c :: rest, acc => do
      let (fh, pa) ← nh c
      buildGroups nh rest (addMember acc c.flavor pa fh c)

end

/-- `struct cmp_sim`: `(common, left_only, right_only)` counts. -/
structure CmpSim where
  common : Nat
  left : Nat
  right : Nat
  deriving DecidableEq, Repr

/-- `cmp_sim_add` of `cmp_common.c`: componentwise addition. -/
def CmpSim.add (a b : CmpSim) : CmpSim :=
  ⟨a.common + b.common, a.left + b.left, a.right + b.right⟩

/-- The denominator of the similarity rate. -/
def CmpSim.total (s : CmpSim) : Nat := s.common + s.left + s.right

/-- `cmp_sim_rate` of `cmp_common.c` computes
`(double)common / (common + left + right)` — an IEEE `double`, which
is NaN when the total is zero (reachable: `cmp_node_sim`'s default
returns `(0,0,0)` for differing hashes, and so does the set
similarity of two empty child sets).  This total ℚ-valued variant
(`0/0 = 0` by the rational convention) exists only to pick one fixed
stand-in order for `qsort`'s output (see `simDescLE`); no claim
theorem asserts a property of these values.  The exact embedding of
the `double` rate, NaN included, is `CmpSim.rateDbl` below. -/
def CmpSim.rate (s : CmpSim) : ℚ := (s.common : ℚ) / (s.total : ℚ)

/-- `cmp_sim_rate` of `cmp_common.c`, exactly: the `double` quotient
`(double)common / (common + left + right)` is NaN (`none`) when the
total is zero, and otherwise the real number `common / total` rounded
to the nearest `double` — the counts absorbed here are small integers,
and every comparison a theorem below makes between such quotients
(`0`, `1`, NaN) is unaffected by the rounding. -/
def CmpSim.rateDbl (s : CmpSim) : Option ℚ :=
  if s.total = 0 then none
  else some ((s.common : ℚ) / (s.total : ℚ))

/-- `cmp_sim_cmp` of `cmp_common.c`: a three-way comparison of the
`double` rates by `<` and `>`.  In IEEE arithmetic every ordered
comparison involving NaN is false, so two sims compare "equal"
whenever either rate is NaN — which makes the comparison inconsistent
(not a strict weak order) as soon as one NaN-rated sim meets two
differently-rated ones. -/
def cmpSimCmp (a b : CmpSim) : Int :=
  match a.rateDbl, b.rateDbl with
  | some r1, some r2 => if r1 < r2 then -1 else if r1 > r2 then 1 else 0
  | _, _ => 0

/-- `sim_array_item_qsort_cmp` of `cmp_subset_defs.c`: the negation of
`cmp_sim_cmp`, i.e. descending rate — where the rates are comparable
at all. -/
def simArrayQsortCmp (a b : CmpSim) : Int := -cmpSimCmp a b

def membersOf : Option Subset → List Memb
  | none => []
  | some s => s.members

/-- `hashtab_search(MAYBE(subset, items), full_hash)`. -/
def memberByFull (s : Option Subset) (h : HV) : Option Memb :=
  (membersOf s).find? (fun m => m.full = h)

def subsetsOf : Option SetRep → List Subset
  | none => []
  | some s => s.subsets

/-- `hashtab_search(MAYBE(set, items), partial_hash)`. -/
def subsetByKey (s : Option SetRep) (k : HV) : Option Subset :=
  (subsetsOf s).find? (fun sub => sub.partKey = k)

/-- `MAYBE(subset, full_hash)`; `cmp_hash_cmp` on these options models
the null-aware hash comparator (a null hash equals only a null hash). -/
def subsetFullOpt : Option Subset → Option HV
  | none => none
  | some s => some s.full

/-- `MAYBE(set, full_hash)`. -/
def setFullOpt : Option SetRep → Option HV
  | none => none
  | some s => some s.full

/-- Flavor-mismatch test of the
`assert(!left || !right || left->flavor == right->flavor)` style
assertions: only fires when both sides are present. -/
def subsetFlavorMismatch (l r : Option Subset) : Bool :=
  match l, r with
  | some a, some b => a.flavor ≠ b.flavor
  | _, _ => false

/-- The default (table-less) similarity counting of `cmp_subset_sim`:
both member tables are walked, each member found on the other side
incrementing `common` (so a member matched on both sides contributes
twice) and each member absent from the other side incrementing its
side's count. -/
def subsetSimCount (l r : Option Subset) : CmpSim :=
  let lm := membersOf l
  let rm := membersOf r
  { common := (lm.filter (fun m => (memberByFull r m.full).isSome)).length
      + (rm.filter (fun m => (memberByFull l m.full).isSome)).length,
    left := (lm.filter (fun m => (memberByFull r m.full).isNone)).length,
    right := (rm.filter (fun m => (memberByFull l m.full).isNone)).length }

/-- `cmp_subset_sim` of `cmp_subset.c`: zero for two absent subsets,
flavor-mismatch assertion, `{.common = left->items->nel}` when the
full hashes compare equal, and otherwise the default counting (no
flavor registers a subset `sim` in `subset_defs`, so `def->sim` is
always null). -/
def cmpSubsetSim (l r : Option Subset) : Except Unit CmpSim :=
  match l, r with
  | none, none => .ok ⟨0, 0, 0⟩
  | _, _ =>
      if subsetFlavorMismatch l r then .error ()
      else if subsetFullOpt l = subsetFullOpt r then
        match l with
        | some ls => .ok ⟨ls.members.length, 0, 0⟩
        | none => .error ()
      else
        .ok (subsetSimCount l r)

def sumSubsetSims : List (Option Subset × Option Subset) →
    Except Unit CmpSim
  | [] => .ok ⟨0, 0, 0⟩
  | (a, b) :: rest => do
      let s ← cmpSubsetSim a b
      let srest ← sumSubsetSims rest
      .ok (s.add srest)

/-- `cmp_set_sim` of `cmp_set.c`: total the subset sims, pairing left
subsets with the same-partial-hash right subset, then the right
subsets absent on the left.  Divergence: for a right subset whose
partial key is present on the left, `set_sim_map`
(part_006:147-162) adds a `struct cmp_sim` local that was never
assigned — an uninitialized read, so the program's similarity totals
are undefined values on that reachable path; the model adds nothing
there.  Because of this, no claim theorem asserts the value of a
similarity the engine computes: similarity outputs only ever appear
as hypotheses of the form "this sub-run returned some `sim`". -/
def cmpSetSim (l r : Option SetRep) : Except Unit CmpSim := do
  let s1 ← sumSubsetSims
    ((subsetsOf l).map (fun sub => (some sub, subsetByKey r sub.partKey)))
  let s2 ← sumSubsetSims
    (((subsetsOf r).filter
        (fun sub => (subsetByKey l sub.partKey).isNone)).map
      (fun sub => ((none : Option Subset), some sub)))
  .ok (s1.add s2)

def astFlavorMismatch (l r : Option Ast) : Bool :=
  match l, r with
  | some a, some b => a.flavor ≠ b.flavor
  | _, _ => false

/-- `EITHER(left, right, ...)->flavor` (at least one side present at
every use site; `.none_` is a dead default). -/
def eitherFlavor (l r : Option Ast) : CilFlavor :=
  match l with
  | some a => a.flavor
  | none =>
      match r with
      | some b => b.flavor
      | none => .none_

/-- `MAYBE(left_data, items)`: the child set of a possibly absent
container node. -/
def optChildSet (fu : Nat) : Option Ast → Except Unit (Option SetRep)
  | none => .ok none
  | some a => do
      let s ← buildSet fu a.children
      .ok (some s)

/-- `MAYBE(left_data, items[i])` for conditional containers. -/
def optCondBranches (fu : Nat) : Option Ast →
    Except Unit (Option SetRep × Option SetRep)
  | none => .ok (none, none)
  | some a => condBranches (buildSet fu) a.children none none

/-- `cmp_node_sim` of `cmp_node.c`: zero for two absent nodes,
flavor-mismatch assertion, dispatch to the registered `sim`
(set similarity for container flavors, branchwise set similarity for
conditional containers), and otherwise the default: `(1,0,0)` when the
full hashes compare equal, else `{ .left = !right, .right = !left }` —
which is `(0,0,0)` when both nodes are present.  With exactly one node
present the default branch would compare hash bytes through a null
`cmp_node` pointer (undefined behaviour, unreachable from the engine:
the only caller passes two present nodes); that case is an error
here. -/
def cmpNodeSim (fu : Nat) (l r : Option Ast) : Except Unit CmpSim :=
  match l, r with
  | none, none => .ok ⟨0, 0, 0⟩
  | _, _ =>
      if astFlavorMismatch l r then .error ()
      else
        let f := eitherFlavor l r
        if nodeHasSim f then
          match nodeKind f with
          | .container => do
              let ls ← optChildSet fu l
              let rs ← optChildSet fu r
              cmpSetSim ls rs
          | .condContainer => do
              let lb ← optCondBranches fu l
              let rb ← optCondBranches fu r
              let sF ← cmpSetSim lb.1 rb.1
              let sT ← cmpSetSim lb.2 rb.2
              .ok (sF.add sT)
          | .default => .error ()
        else
          match l, r with
          | some la, some ra => do
              let (fl, _) ← nodeHashes fu la
              let (fr, _) ← nodeHashes fu ra
              if fl = fr then .ok ⟨1, 0, 0⟩ else .ok ⟨0, 0, 0⟩
          | _, _ => .error ()

/-- `enum diff_side`. -/
inductive Side where
  | left
  | right
  deriving DecidableEq, Repr

/-- `struct diff`: one diff record (descriptions are always null in
the engine, so omitted). -/
structure DRec where
  side : Side
  node : Ast

/-- `struct diff_tree_node`: the paired comparison nodes of one
context level, the records at this level, and the child levels. -/
inductive DiffTree where
  | node (left right : Option Ast) (recs : List DRec)
      (children : List DiffTree)

/-- What one comparison call appends to the caller's diff-tree node:
records and child nodes, in append order. -/
abbrev CmpRes := List DRec × List DiffTree

/-- The default subset strategy of `cmp_subset_compare`: a LEFT record
for every left member absent from the right (by full hash), then a
RIGHT record for every right member absent from the left; no
recursion. -/
def subsetDefaultCompare (l r : Option Subset) : List DRec :=
  (membersOf l).filterMap
    (fun m => if (memberByFull r m.full).isNone
              then some ⟨.left, m.ast⟩ else none)
  ++ (membersOf r).filterMap
    (fun m => if (memberByFull l m.full).isNone
              then some ⟨.right, m.ast⟩ else none)

/-- `cmp_subset_container_single_compare` and
`cmp_subset_container_single_jump_node_compare` of the `subset_defs`
table: the `assert(!left != !right || (left->items->nel == 1 &&
right->items->nel == 1))` becomes an error; with both sides present
the two single members are compared — the jump variant on the caller's
diff-tree node, the plain variant in a fresh child node; with one side
present the plain variant emits one record while the jump variant
recurses one-sidedly (`cmp_node_compare(MAYBE(...), MAYBE(...))`). -/
def subsetSingleCompare (jump : Bool)
    (cmpN : Option Ast → Option Ast → Except Unit CmpRes)
    (l r : Option Subset) : Except Unit CmpRes :=
  match l, r with
  | some ls, some rs =>
      match ls.members, rs.members with
      | [lm], [rm] =>
          if jump then cmpN (some lm.ast) (some rm.ast)
          else do
            let res ← cmpN (some lm.ast) (some rm.ast)
            .ok ([], [.node (some lm.ast) (some rm.ast) res.1 res.2])
      | _, _ => .error ()
  | some ls, none =>
      match ls.members with
      | lm :: _ =>
          if jump then cmpN (some lm.ast) none
          else .ok ([⟨.left, lm.ast⟩], [])
      | [] => .error ()
  | none, some rs =>
      match rs.members with
      | rm :: _ =>
          if jump then cmpN none (some rm.ast)
          else .ok ([⟨.right, rm.ast⟩], [])
      | [] => .error ()
  | none, none => .ok ([], [])

/-- The members of a subset absent from the other side by full hash
(`container_sim_compare_map` building `unique_left`/`unique_right`,
in table order). -/
def uniqueMembers (ms : List Memb) (other : Option Subset) : List Memb :=
  ms.filter (fun m => (memberByFull other m.full).isNone)

/-- The flat row-major similarity matrix of
`cmp_subset_container_sim_compare`: one entry per
`(left index, right index)` pair. -/
def simMatrix (fu : Nat) (ul ur : List Memb) :
    Except Unit (List (CmpSim × Nat × Nat)) :=
  (ul.enum.flatMap
    (fun li => ur.enum.map (fun ri => (li, ri)))).mapM
    (fun p => do
      let s ← cmpNodeSim fu (some p.1.2.ast) (some p.2.2.ast)
      .ok (s, p.1.1, p.2.1))

/-- A stand-in for the order in which `qsort(...,
&sim_array_item_qsort_cmp)` leaves the pair array.  The real
comparator (see `cmpSimCmp`) works on `double` rates where reachable
NaNs make it inconsistent, and `qsort` neither is stable nor pins
down the order of "equal" elements — so the program's processing
order is unspecified; the model fixes one concrete order (a stable
insertion sort on the total ℚ rate) purely so that
`containerSimCompare` is a function.  No claim theorem asserts which
order this is: the C5 theorem quantifies the walked order
existentially, and the C1 theorem only meets 1×1 matrices, where
every order is the same list. -/
def simDescLE (a b : CmpSim × Nat × Nat) : Prop :=
  b.1.rate ≤ a.1.rate

instance : DecidableRel simDescLE := fun a b =>
  inferInstanceAs (Decidable (b.1.rate ≤ a.1.rate))

instance : IsTotal (CmpSim × Nat × Nat) simDescLE :=
  ⟨fun a b => (le_total b.1.rate a.1.rate).imp id id⟩

instance : IsTrans (CmpSim × Nat × Nat) simDescLE :=
  ⟨fun _ _ _ h1 h2 => le_trans h2 h1⟩

/-- The greedy walk over the sorted pair list: a pair is matched only
when both endpoints are still unmatched (`unique_left[...]`/
`unique_right[...]` not yet nulled); matching compares the two members
recursively and nulls both endpoints.  Returns the matched pairs with
their comparison results, and the endpoint arrays after the walk. -/
def simWalk (cmpN : Option Ast → Option Ast → Except Unit CmpRes) :
    List (CmpSim × Nat × Nat) → List (Option Memb) →
    List (Option Memb) →
    Except Unit (List (Memb × Memb × CmpRes) ×
      List (Option Memb) × List (Option Memb))
  | [], al, ar => .ok ([], al, ar)
  | (_, li, ri) :: rest, al, ar =>
      match al.getD li none, ar.getD ri none with
      | some lm, some rm => do
          let res ← cmpN (some lm.ast) (some rm.ast)
          let (ms, al', ar') ←
            simWalk cmpN rest (al.set li none) (ar.set ri none)
          .ok ((lm, rm, res) :: ms, al', ar')
      | _, _ => simWalk cmpN rest al ar

/-- `cmp_subset_container_sim_compare` of `cmp_subset_defs.c`: compute
the unique members of both sides; if either list is empty, emit every
unique member directly as a record; otherwise compute all pairwise
similarities, sort them by descending rate, greedily match pairs whose
endpoints are both unmatched (each match descending into a fresh child
diff-tree node), and finally emit the still-unmatched members as
records, left side first. -/
def containerSimCompare (fu : Nat)
    (cmpN : Option Ast → Option Ast → Except Unit CmpRes)
    (l r : Option Subset) : Except Unit CmpRes := do
  let ul := uniqueMembers (membersOf l) r
  let ur := uniqueMembers (membersOf r) l
  if ul.isEmpty ∨ ur.isEmpty then
    .ok (ul.map (fun m => ⟨.left, m.ast⟩)
         ++ ur.map (fun m => ⟨.right, m.ast⟩), [])
  else do
    let sims ← simMatrix fu ul ur
    let sorted := List.insertionSort simDescLE sims
    let (ms, al', ar') ← simWalk cmpN sorted (ul.map some) (ur.map some)
    .ok ((al'.filterMap id).map (fun m => (⟨.left, m.ast⟩ : DRec))
         ++ (ar'.filterMap id).map (fun m => (⟨.right, m.ast⟩ : DRec)),
         ms.map (fun t =>
           DiffTree.node (some t.1.ast) (some t.2.1.ast)
             t.2.2.1 t.2.2.2))

/-- `cmp_subset_get_def(EITHER(left, right, flavor))`. -/
def eitherSubsetFlavor (l r : Option Subset) : CilFlavor :=
  match l with
  | some a => a.flavor
  | none =>
      match r with
      | some b => b.flavor
      | none => .none_

/-- `cmp_subset_compare` of `cmp_subset.c`: nothing for two absent
subsets; flavor-mismatch assertion; nothing when the full hashes
compare equal; otherwise dispatch on the subset strategy of the
present flavor. -/
def subsetCompare (fu : Nat)
    (cmpN : Option Ast → Option Ast → Except Unit CmpRes)
    (l r : Option Subset) : Except Unit CmpRes :=
  match l, r with
  | none, none => .ok ([], [])
  | _, _ =>
      if subsetFlavorMismatch l r then .error ()
      else if subsetFullOpt l = subsetFullOpt r then .ok ([], [])
      else
        match subsetKind (eitherSubsetFlavor l r) with
        | .singleJump => subsetSingleCompare true cmpN l r
        | .single => subsetSingleCompare false cmpN l r
        | .sim => containerSimCompare fu cmpN l r
        | .default => .ok (subsetDefaultCompare l r, [])

def subsetComparePairs (fu : Nat)
    (cmpN : Option Ast → Option Ast → Except Unit CmpRes) :
    List (Option Subset × Option Subset) → Except Unit CmpRes
  | [] => .ok ([], [])
  | (a, b) :: rest => do
      let res ← subsetCompare fu cmpN a b
      let rres ← subsetComparePairs fu cmpN rest
      .ok (res.1 ++ rres.1, res.2 ++ rres.2)

/-- `cmp_set_compare` of `cmp_set.c`: nothing when the set full hashes
compare equal (null-aware); otherwise compare each left subset against
the same-partial-hash right subset (or its absence), then each right
subset whose partial hash is absent on the left. -/
def setCompare (fu : Nat)
    (cmpN : Option Ast → Option Ast → Except Unit CmpRes)
    (l r : Option SetRep) : Except Unit CmpRes :=
  if setFullOpt l = setFullOpt r then .ok ([], [])
  else do
    let lres ← subsetComparePairs fu cmpN
      ((subsetsOf l).map (fun sub => (some sub, subsetByKey r sub.partKey)))
    let rres ← subsetComparePairs fu cmpN
      (((subsetsOf r).filter
          (fun sub => (subsetByKey l sub.partKey).isNone)).map
        (fun sub => ((none : Option Subset), some sub)))
    .ok (lres.1 ++ rres.1, lres.2 ++ rres.2)

/-- `cmp_node_compare` of `cmp_node.c` plus the per-flavor `compare`
of `cmp_node_defs.c`: flavor-mismatch assertion, then the container
compare (set compare of the child sets), the conditional-container
compare (branchwise set compare, false branch first) or — for flavors
with no registered `compare` — nothing at all.  The first argument is
recursion fuel, a modelling device for the C's recursion over two
finite trees: every theorem either supplies enough fuel or assumes a
successful run.  Two absent nodes would make `EITHER` dereference
null; the engine never does that. -/
def nodeCompare : Nat → Option Ast → Option Ast → Except Unit CmpRes
  | 0, _, _ => .error ()
  | Nat.succ fuel, l, r =>
      match l, r with
      | none, none => .error ()
      | _, _ =>
          if astFlavorMismatch l r then .error ()
          else
            match nodeKind (eitherFlavor l r) with
            | .container => do
                let ls ← optChildSet fuel l
                let rs ← optChildSet fuel r
                setCompare fuel (nodeCompare fuel) ls rs
            | .condContainer => do
                let lb ← optCondBranches fuel l
                let rb ← optCondBranches fuel r
                let resF ← setCompare fuel (nodeCompare fuel) lb.1 rb.1
                let resT ← setCompare fuel (nodeCompare fuel) lb.2 rb.2
                .ok (resF.1 ++ resT.1, resF.2 ++ resT.2)
            | .default => .ok ([], [])

/-- The `"Addition"` / `"Deletion"` word `diff_print` puts in a
record's prefix comment
(`diff->side == DIFF_LEFT ? "Addition" : "Deletion"`, identical in
both provided versions of `diff.c`). -/
def diffLabel : Side → String
  | .left => "Addition"
  | .right => "Deletion"

/-- The `"+++"` / `"---"` marker line of `diff_print`
(`diff->side == DIFF_LEFT ? "+++" : "---"`). -/
def diffMarker : Side → String
  | .left => "+++"
  | .right => "---"

/-- The first line `diff_print` emits for a record. -/
def diffPrintHeader (d : DRec) : String :=
  String.append (String.append "; " (diffLabel d.side)) " found"

/-! ### Supporting lemmas -/

theorem exceptBind_ok {α β : Type} {x : Except Unit α}
    {f : α → Except Unit β} {b : β} :
    (x >>= f) = .ok b ↔ ∃ a, x = .ok a ∧ f a = .ok b := by
  cases x with
  | error e => simp [Bind.bind, Except.bind]
  | ok a => simp [Bind.bind, Except.bind]

theorem astFlavorMismatch_self (a : Ast) :
    astFlavorMismatch (some a) (some a) = false := by
  simp [astFlavorMismatch]

theorem setCompare_self (fu : Nat)
    (cmpN : Option Ast → Option Ast → Except Unit CmpRes)
    (s : Option SetRep) : setCompare fu cmpN s s = .ok ([], []) := by
  simp [setCompare]

/-- Comparing a node with itself appends nothing: every per-flavor
compare begins with a hash-equality cutoff on identically built child
sets. -/
theorem nodeCompare_self (fu : Nat) (a : Ast) (res : CmpRes)
    (h : nodeCompare fu (some a) (some a) = .ok res) : res = ([], []) := by
  cases fu with
  | zero => simp [nodeCompare] at h
  | succ n =>
    rw [nodeCompare.eq_def] at h
    simp only [astFlavorMismatch_self, Bool.false_eq_true, if_false,
      eitherFlavor] at h
    cases hk : nodeKind a.flavor with
    | container =>
      rw [hk] at h
      rcases exceptBind_ok.mp h with ⟨ls, hls, h⟩
      rcases exceptBind_ok.mp h with ⟨rs, hrs, h⟩
      have : ls = rs := by
        rw [hls] at hrs; exact (Except.ok.inj hrs)
      subst this
      rw [setCompare_self] at h
      exact (Except.ok.inj h).symm
    | condContainer =>
      rw [hk] at h
      rcases exceptBind_ok.mp h with ⟨lb, hlb, h⟩
      rcases exceptBind_ok.mp h with ⟨rb, hrb, h⟩
      have : lb = rb := by
        rw [hlb] at hrb; exact (Except.ok.inj hrb)
      subst this
      rcases exceptBind_ok.mp h with ⟨resF, hresF, h⟩
      rcases exceptBind_ok.mp h with ⟨resT, hresT, h⟩
      rw [setCompare_self] at hresF
      rw [setCompare_self] at hresT
      have hF := (Except.ok.inj hresF).symm
      have hT := (Except.ok.inj hresT).symm
      subst hF; subst hT
      simpa using (Except.ok.inj h).symm
    | default =>
      rw [hk] at h
      exact (Except.ok.inj h).symm

/-! ### Claim theorems -/

/-- C2 (counterexample): the claim asserts that `cmp_data_init`
succeeds for every flavor of CIL's closed flavor set, unspecialised
flavors being covered by a default absorb-only-the-tag rule.  It does
not: `CIL_CONDBLOCK` is a CIL flavor (the engine itself matches on it
in `cmp_node_defs.c`), `data_defs` has no entry for it, and
`cmp_data_init` terminates the process
(`error(EXIT_FAILURE, "Encountered an unknown node type")`) instead of
applying any default rule. -/
theorem C2_counterexample :
    flavorName .condblock = none
    ∧ cmpDataInit 1 .condblock (.condblock true) = .error () :=
  ⟨rfl, rfl⟩

/-- C2 (amended): for every flavor registered in `data_defs` the data
hasher dispatches to that flavor's rule; for a flavor with no entry
(null `init`) `cmp_data_init` terminates the process with an
"unknown node type" error for every payload — there is no default
rule. -/
theorem C2_no_default_rule (fu : Nat) (f : CilFlavor) (d : CilData)
    (h : flavorName f = none) : cmpDataInit fu f d = .error () := by
  cases fu with
  | zero => rfl
  | succ n => simp [cmpDataInit, h]

theorem C2_no_default_rule_witness :
    flavorName .condblock = none
    ∧ cmpDataInit 7 .condblock (.condblock false) = .error () :=
  ⟨rfl, C2_no_default_rule 7 .condblock (.condblock false) rfl⟩

/-- C3 (counterexample): the claim asserts that the plain-text report
identifies a LEFT record as a deletion and a RIGHT record as an
addition.  `diff_print` does the opposite: a LEFT record is prefixed
`"; Addition found"` with the `"+++"` marker, and a RIGHT record
`"; Deletion found"` with `"---"` (identically in both provided
versions of `diff.c`). -/
theorem C3_counterexample :
    diffPrintHeader ⟨Side.left, Ast.mk .type_ (.decl "T") []⟩
      = "; Addition found"
    ∧ diffLabel Side.left ≠ "Deletion"
    ∧ diffLabel Side.right ≠ "Addition" := by
  refine ⟨rfl, ?_, ?_⟩ <;> decide

/-- C3 (amended): in the plain-text report every LEFT record is
identified in its prefix comment as an addition (`"Addition"`, marker
`"+++"`) and every RIGHT record as a deletion (`"Deletion"`, marker
`"---"`). -/
theorem C3_labels :
    diffLabel Side.left = "Addition" ∧ diffMarker Side.left = "+++"
    ∧ diffLabel Side.right = "Deletion" ∧ diffMarker Side.right = "---"
    ∧ (∀ d : DRec, diffPrintHeader d
        = String.append (String.append "; " (diffLabel d.side)) " found") :=
  ⟨rfl, rfl, rfl, rfl, fun _ => rfl⟩

/-- C4 (counterexample): the claim asserts that the default
`cmp_node_sim` on two present nodes with differing full hashes returns
`(0,1,1)`.  It returns `(0,0,0)`: the fallback is
`{ .left = !right, .right = !left }`, and both pointers are
non-null. -/
theorem C4_counterexample :
    cmpNodeSim 5 (some (.mk .type_ (.decl "a") []))
        (some (.mk .type_ (.decl "b") []))
      = .ok ⟨0, 0, 0⟩
    ∧ (⟨0, 0, 0⟩ : CmpSim) ≠ ⟨0, 1, 1⟩ := by
  refine ⟨rfl, by decide⟩

/-- C4 (amended): for a flavor with no registered `sim` and two
*present* nodes (the only case the engine reaches, and the only one
avoiding a read through a null pointer), `cmp_node_sim` returns
`(1,0,0)` when the full hashes are equal and `(0,0,0)` otherwise —
the `left`/`right` components are `!right`/`!left`, i.e. they flag an
*absent* opposite node, not a present own-side node. -/
theorem C4_default_sim (fu : Nat) (a b : Ast) (ha' hb' : HV × HV)
    (hf : a.flavor = b.flavor) (hsim : nodeHasSim a.flavor = false)
    (ha : nodeHashes fu a = .ok ha') (hb : nodeHashes fu b = .ok hb') :
    cmpNodeSim fu (some a) (some b)
      = .ok (if ha'.1 = hb'.1 then ⟨1, 0, 0⟩ else ⟨0, 0, 0⟩) := by
  have hmm : astFlavorMismatch (some a) (some b) = false := by
    simp [astFlavorMismatch, hf]
  simp only [cmpNodeSim, hmm, Bool.false_eq_true, if_false,
    eitherFlavor, hsim, ha, hb]
  simp only [Bind.bind, Except.bind]
  by_cases h : ha'.1 = hb'.1
  · rw [if_pos h, if_pos h]
  · rw [if_neg h, if_neg h]

theorem C4_default_sim_witness :
    CilFlavor.type_ = CilFlavor.type_
    ∧ nodeHasSim CilFlavor.type_ = false
    ∧ cmpNodeSim 5 (some (.mk .type_ (.decl "a") []))
        (some (.mk .type_ (.decl "c") []))
      = .ok ⟨0, 0, 0⟩ := by
  refine ⟨rfl, rfl, ?_⟩
  have h := C4_default_sim 5 (.mk .type_ (.decl "a") [])
    (.mk .type_ (.decl "c") [])
    (mkHash [.str "type", .str "a"], mkHash [.str "type", .str "a"])
    (mkHash [.str "type", .str "c"], mkHash [.str "type", .str "c"])
    rfl rfl rfl rfl
  rw [h]
  rfl

/-- C7: reflexivity — comparing two structurally identical policies
yields a diff tree with zero records at every level (the comparison
appends neither records nor children to the root diff-tree node, so
the whole tree is the bare root), and the two root comparison nodes,
built by the same deterministic hashing from the same AST, have equal
full hashes. -/
theorem C7_reflexivity (fu : Nat) (a : Ast) (res : CmpRes)
    (h : nodeCompare fu (some a) (some a) = .ok res) :
    res = ([], [])
    ∧ (∀ lh rh : HV × HV, nodeHashes fu a = .ok lh →
        nodeHashes fu a = .ok rh → lh.1 = rh.1) := by
  refine ⟨nodeCompare_self fu a res h, ?_⟩
  intro lh rh h1 h2
  rw [h1] at h2
  rw [Except.ok.inj h2]

theorem C7_reflexivity_witness :
    nodeCompare 8 (some (Ast.mk .root .unit
        [.mk .type_ (.decl "T") [], .mk .user (.decl "u") []]))
      (some (Ast.mk .root .unit
        [.mk .type_ (.decl "T") [], .mk .user (.decl "u") []]))
      = .ok ([], [])
    ∧ (([], []) : CmpRes) = ([], []) := by
  have h : nodeCompare 8 (some (Ast.mk .root .unit
      [.mk .type_ (.decl "T") [], .mk .user (.decl "u") []]))
      (some (Ast.mk .root .unit
        [.mk .type_ (.decl "T") [], .mk .user (.decl "u") []]))
      = .ok ([], []) := rfl
  exact ⟨h, (C7_reflexivity 8 _ _ h).1 ▸ rfl⟩

theorem mkHash_head_ne {a b : HV} {t1 t2 : List HV} (h : a ≠ b) :
    mkHash (a :: t1) ≠ mkHash (b :: t2) := by
  intro he
  rw [HV.mkHash_cons, HV.mkHash_cons] at he
  exact h (HV.cons.inj he).1

/-- C9 (counterexample): the claim asserts that the data hasher opens
every hash state with the flavor tag, so distinct flavors yield
distinct partial hashes.  The state is opened with the `data_defs`
entry's flavor *name*, and `CIL_PERM` and `CIL_MAP_PERM` share the
name `"perm"` and the same rule, so a perm and a map-perm with equal
names receive identical partial (and full) hashes despite their
distinct flavors. -/
theorem C9_counterexample :
    (cmpDataInit 2 .perm (.decl "x")).map (fun c => c.part)
      = (cmpDataInit 2 .mapPerm (.decl "x")).map (fun c => c.part)
    ∧ (cmpDataInit 2 .perm (.decl "x")).isOk = true
    ∧ CilFlavor.perm ≠ CilFlavor.mapPerm := by
  refine ⟨rfl, rfl, by decide⟩

/-- C9 (amended): the data hasher opens every hash state with the
registered rule's flavor name, and flavors whose registered names
differ yield distinct partial hashes and distinct full hashes for all
payloads; but several flavors share a name
(`CIL_PERM`/`CIL_MAP_PERM` as `"perm"`, `CIL_AVRULE`/`CIL_AVRULEX` as
`"avrule"`, the three default-object flavors as `"cil_default"`), so
partial-hash equality does not imply flavor equality, and the
comparator's flavor-match assertions rest on the AST contract rather
than on the hashes alone. -/
theorem C9_flavor_names (fu : Nat) (f1 f2 : CilFlavor) (d1 d2 : CilData)
    (c1 c2 : CmpData)
    (h1 : cmpDataInit fu f1 d1 = .ok c1)
    (h2 : cmpDataInit fu f2 d2 = .ok c2)
    (hn : flavorName f1 ≠ flavorName f2) :
    c1.part ≠ c2.part ∧ c1.full ≠ c2.full := by
  cases fu with
  | zero => simp [cmpDataInit] at h1
  | succ n =>
    cases hf1 : flavorName f1 with
    | none => simp [cmpDataInit, hf1] at h1
    | some n1 =>
      cases hf2 : flavorName f2 with
      | none => simp [cmpDataInit, hf2] at h2
      | some n2 =>
        simp only [cmpDataInit, hf1] at h1
        simp only [cmpDataInit, hf2] at h2
        rw [hf1, hf2] at hn
        have hne : n1 ≠ n2 := fun he => hn (by rw [he])
        rcases exceptBind_ok.mp h1 with ⟨p1, _, hk1⟩
        rcases exceptBind_ok.mp h2 with ⟨p2, _, hk2⟩
        obtain ⟨full1, part1⟩ := p1
        obtain ⟨full2, part2⟩ := p2
        have e1 : (∃ t, c1.part = mkHash (.str n1 :: t))
            ∧ c1.full = mkHash (.str n1 :: full1) := by
          cases part1 with
          | none =>
            rw [← Except.ok.inj hk1]
            exact ⟨⟨full1, rfl⟩, rfl⟩
          | some pt =>
            rw [← Except.ok.inj hk1]
            exact ⟨⟨pt, rfl⟩, rfl⟩
        have e2 : (∃ t, c2.part = mkHash (.str n2 :: t))
            ∧ c2.full = mkHash (.str n2 :: full2) := by
          cases part2 with
          | none =>
            rw [← Except.ok.inj hk2]
            exact ⟨⟨full2, rfl⟩, rfl⟩
          | some pt =>
            rw [← Except.ok.inj hk2]
            exact ⟨⟨pt, rfl⟩, rfl⟩
        rcases e1.1 with ⟨t1, ht1⟩
        rcases e2.1 with ⟨t2, ht2⟩
        have hstr : HV.str n1 ≠ HV.str n2 := by
          intro he; exact hne (HV.str.inj he)
        constructor
        · rw [ht1, ht2]; exact mkHash_head_ne hstr
        · rw [e1.2, e2.2]; exact mkHash_head_ne hstr

theorem C9_flavor_names_witness :
    cmpDataInit 2 .perm (.decl "x")
      = .ok ⟨.perm, mkHash [.str "perm", .str "x"],
             mkHash [.str "perm", .str "x"]⟩
    ∧ cmpDataInit 2 .type_ (.decl "x")
      = .ok ⟨.type_, mkHash [.str "type", .str "x"],
             mkHash [.str "type", .str "x"]⟩
    ∧ mkHash [.str "perm", .str "x"] ≠ mkHash [.str "type", .str "x"] := by
  have h := C9_flavor_names 2 .perm .type_ (.decl "x") (.decl "x")
    ⟨.perm, mkHash [.str "perm", .str "x"],
     mkHash [.str "perm", .str "x"]⟩
    ⟨.type_, mkHash [.str "type", .str "x"],
     mkHash [.str "type", .str "x"]⟩
    rfl rfl (by decide)
  exact ⟨rfl, rfl, h.2⟩

/-- An `ibpkeycon` payload. -/
def ibData (subnet : String) (lo hi : Nat) (cs : Option String)
    (ocd : Option CilData) : CilData :=
  .ibpkeycon subnet lo hi cs ocd

/-- A one-statement policy holding a single `ibpkeycon`. -/
def ibRoot (subnet : String) (lo hi : Nat) (cs : Option String)
    (ocd : Option CilData) : Ast :=
  .mk .root .unit [.mk .ibpkeycon (ibData subnet lo hi cs ocd) []]

theorem ibpkeycon_data_eq (fu : Nat) (subnet : String) (lo hi1 hi2 : Nat)
    (cs : Option String) (ocd : Option CilData) :
    cmpDataInit fu .ibpkeycon (ibData subnet lo hi1 cs ocd)
      = cmpDataInit fu .ibpkeycon (ibData subnet lo hi2 cs ocd) := by
  cases fu with
  | zero => rfl
  | succ n =>
    cases n with
    | zero => rfl
    | succ m => rfl

theorem ibpkeycon_nodeHashes_eq (fu : Nat) (subnet : String)
    (lo hi1 hi2 : Nat) (cs : Option String) (ocd : Option CilData) :
    nodeHashes fu (.mk .ibpkeycon (ibData subnet lo hi1 cs ocd) [])
      = nodeHashes fu (.mk .ibpkeycon (ibData subnet lo hi2 cs ocd) []) := by
  cases fu with
  | zero => rfl
  | succ n =>
    simp only [nodeHashes, Ast.flavor, Ast.data, Ast.children, nodeKind]
    rw [ibpkeycon_data_eq]

/-- `cmp_set_create` on a single child: one group, one member, the
subset full hash is the member's full hash, and the set hash digests
that single subset hash. -/
theorem buildSet_singleton (m : Nat) (c : Ast) :
    buildSet (Nat.succ m) [c]
      = (nodeHashes m c >>= fun p =>
          Except.ok ⟨[⟨c.flavor, p.2, [⟨c, p.1⟩], p.1⟩],
            mkHash (sortHashes [p.1])⟩) := by
  cases hp : nodeHashes m c with
  | error e =>
    cases e
    simp [buildSet, buildGroups, hp, Bind.bind, Except.bind]
  | ok p =>
    obtain ⟨fh, pa⟩ := p
    simp [buildSet, buildGroups, hp, Bind.bind, Except.bind, addMember,
      finalizeGroup]

/-- C10: the `ibpkeycon` data hasher absorbs the subnet prefix string
and then the `pkey_low` field twice — `pkey_high` is never absorbed
(the C updates with `&ibpkeycon->pkey_low` in both calls) — so two
`ibpkeycon` statements differing only in `pkey_high` get identical
full and partial hashes, and diffing two policies that differ only in
an `ibpkeycon`'s `pkey_high` emits no record at all. -/
theorem C10_ibpkeycon_pkey_high_ignored (fu : Nat) (subnet : String)
    (lo hi1 hi2 : Nat) (cs : Option String) (ocd : Option CilData) :
    cmpDataInit fu .ibpkeycon (ibData subnet lo hi1 cs ocd)
      = cmpDataInit fu .ibpkeycon (ibData subnet lo hi2 cs ocd)
    ∧ (∀ res, nodeCompare fu (some (ibRoot subnet lo hi1 cs ocd))
        (some (ibRoot subnet lo hi2 cs ocd)) = .ok res →
        res = ([], [])) := by
  refine ⟨ibpkeycon_data_eq fu subnet lo hi1 hi2 cs ocd, ?_⟩
  intro res h
  cases fu with
  | zero => simp [nodeCompare] at h
  | succ n =>
    cases n with
    | zero =>
      have h' : ((Except.error () : Except Unit (Option SetRep))
            >>= fun ls =>
          optChildSet 0 (some (ibRoot subnet lo hi2 cs ocd))
            >>= fun rs =>
          setCompare 0 (nodeCompare 0) ls rs) = Except.ok res := h
      simp [Bind.bind, Except.bind] at h'
    | succ m =>
      have h' : ((buildSet (Nat.succ m)
            [Ast.mk .ibpkeycon (ibData subnet lo hi1 cs ocd) []]
              >>= fun s => Except.ok (some s)) >>= fun ls =>
          (buildSet (Nat.succ m)
            [Ast.mk .ibpkeycon (ibData subnet lo hi2 cs ocd) []]
              >>= fun s => Except.ok (some s)) >>= fun rs =>
          setCompare (Nat.succ m) (nodeCompare (Nat.succ m)) ls rs)
          = Except.ok res := h
      have hnh := ibpkeycon_nodeHashes_eq m subnet lo hi1 hi2 cs ocd
      cases hnp : nodeHashes m
          (.mk .ibpkeycon (ibData subnet lo hi1 cs ocd) []) with
      | error e =>
        cases e
        have hb1 : buildSet (Nat.succ m)
            [Ast.mk .ibpkeycon (ibData subnet lo hi1 cs ocd) []]
            = .error () := by
          rw [buildSet_singleton, hnp]; rfl
        rw [hb1] at h'
        simp [Bind.bind, Except.bind] at h'
      | ok p =>
        have hb1 : buildSet (Nat.succ m)
            [Ast.mk .ibpkeycon (ibData subnet lo hi1 cs ocd) []]
            = .ok ⟨[⟨.ibpkeycon, p.2,
                [⟨Ast.mk .ibpkeycon (ibData subnet lo hi1 cs ocd) [],
                  p.1⟩], p.1⟩],
              mkHash (sortHashes [p.1])⟩ := by
          rw [buildSet_singleton, hnp]; rfl
        have hb2 : buildSet (Nat.succ m)
            [Ast.mk .ibpkeycon (ibData subnet lo hi2 cs ocd) []]
            = .ok ⟨[⟨.ibpkeycon, p.2,
                [⟨Ast.mk .ibpkeycon (ibData subnet lo hi2 cs ocd) [],
                  p.1⟩], p.1⟩],
              mkHash (sortHashes [p.1])⟩ := by
          rw [buildSet_singleton, ← hnh, hnp]; rfl
        rw [hb1, hb2] at h'
        simp only [Bind.bind, Except.bind] at h'
        simp only [setCompare, setFullOpt, if_true] at h'
        exact (Except.ok.inj h').symm

theorem C10_ibpkeycon_pkey_high_ignored_witness :
    nodeCompare 6 (some (ibRoot "s" 1 7 (some "c") none))
      (some (ibRoot "s" 1 9 (some "c") none)) = .ok ([], [])
    ∧ (([], []) : CmpRes) = ([], []) := by
  have hrun : nodeCompare 6 (some (ibRoot "s" 1 7 (some "c") none))
      (some (ibRoot "s" 1 9 (some "c") none)) = .ok ([], []) := rfl
  refine ⟨hrun, ?_⟩
  exact (C10_ibpkeycon_pkey_high_ignored 6 "s" 1 7 9
    (some "c") none).2 ([], []) hrun

theorem finalizeGroup_spec (g : Group) :
    (∀ m, (finalizeGroup g).members = [m] → (finalizeGroup g).full = m.full)
    ∧ ((finalizeGroup g).members.length ≠ 1 →
        (finalizeGroup g).full
          = mkHash (sortHashes
              ((finalizeGroup g).members.map (fun mb => mb.full)))) := by
  cases hm : g.members with
  | nil =>
    constructor
    · intro m hmm
      simp [finalizeGroup, hm] at hmm
    · intro _
      simp [finalizeGroup, hm]
  | cons a t =>
    cases t with
    | nil =>
      constructor
      · intro m hmm
        simp only [finalizeGroup, hm] at hmm ⊢
        rw [← List.singleton_inj.mp hmm]
      · intro hlen
        simp [finalizeGroup, hm] at hlen
    | cons b t2 =>
      constructor
      · intro m hmm
        simp [finalizeGroup, hm] at hmm
      · intro _
        simp [finalizeGroup, hm]

/-- C8: for every subset (no flavor registers a `finalize` override,
so the default finalisation always runs), after finalisation a subset
with exactly one member carries that member's full hash verbatim, and
a subset with any other member count carries the one-shot digest of
its members' full hashes sorted lexicographically. -/
theorem C8_subset_finalize (fu : Nat) (children : List Ast) (s : SetRep)
    (h : buildSet fu children = .ok s) :
    ∀ sub ∈ s.subsets,
      (∀ m, sub.members = [m] → sub.full = m.full)
      ∧ (sub.members.length ≠ 1 →
          sub.full = mkHash (sortHashes
            (sub.members.map (fun mb => mb.full)))) := by
  intro sub hsub
  cases fu with
  | zero => simp [buildSet] at h
  | succ n =>
    simp only [buildSet] at h
    by_cases he : children.isEmpty
    · rw [if_pos he] at h
      rw [← Except.ok.inj h] at hsub
      simp at hsub
    · rw [if_neg he] at h
      rcases exceptBind_ok.mp h with ⟨gs, _, hmk⟩
      have hs : s.subsets = gs.map finalizeGroup := by
        rw [← Except.ok.inj hmk]
      rw [hs] at hsub
      rcases List.mem_map.mp hsub with ⟨g, _, hg⟩
      rw [← hg]
      exact finalizeGroup_spec g

def c8m0 : Memb :=
  ⟨.mk .bool_ (.namedBool "b" 0) [],
   mkHash [.str "boolean", .str "b", .num 0]⟩

def c8m1 : Memb :=
  ⟨.mk .bool_ (.namedBool "b" 1) [],
   mkHash [.str "boolean", .str "b", .num 1]⟩

def c8subA : Subset :=
  ⟨.bool_, mkHash [.str "boolean", .str "b"], [c8m0, c8m1],
   mkHash (sortHashes [mkHash [.str "boolean", .str "b", .num 0],
                       mkHash [.str "boolean", .str "b", .num 1]])⟩

def c8set : SetRep := ⟨[c8subA], mkHash (sortHashes [c8subA.full])⟩

theorem C8_subset_finalize_witness :
    c8subA.full
      = mkHash (sortHashes (c8subA.members.map (fun mb => mb.full))) := by
  have h := C8_subset_finalize 4
    [Ast.mk .bool_ (.namedBool "b" 0) [],
     Ast.mk .bool_ (.namedBool "b" 1) []] c8set rfl
  exact (h c8subA (List.Mem.head _)).2 (by decide)

/-! ### C1: renamed optionals -/

/-- `(optional name BODY)` as an AST node. -/
def astOpt (n : String) (body : List Ast) : Ast :=
  .mk .optional_ (.optional n) body

/-- A one-statement policy wrapping a single optional. -/
def optRoot (n : String) (body : List Ast) : Ast :=
  .mk .root .unit [astOpt n body]

/-- C1 (counterexample): the claim asserts that the partial hash of an
optional includes its name, that differently-named optionals land in
different subsets, and that diffing `(optional o1 BODY)` against
`(optional o2 BODY)` emits one LEFT and one RIGHT record at the root
with no descent.  In the code, `cmp_data_optional_init` snapshots the
partial hash *before* absorbing the name, so the partial hashes are
equal, the two optionals share one subset, and the similarity strategy
of `subset_defs[CIL_OPTIONAL]` pairs them: the diff is zero records at
the root and a single descent holding the two optionals (which, the
bodies being identical, is itself empty). -/
theorem C1_counterexample :
    (cmpDataInit 3 .optional_ (.optional "o1")).map (fun c => c.part)
      = (cmpDataInit 3 .optional_ (.optional "o2")).map (fun c => c.part)
    ∧ nodeCompare 9 (some (optRoot "o1" [.mk .type_ (.decl "T") []]))
        (some (optRoot "o2" [.mk .type_ (.decl "T") []]))
      = .ok ([], [DiffTree.node
          (some (astOpt "o1" [.mk .type_ (.decl "T") []]))
          (some (astOpt "o2" [.mk .type_ (.decl "T") []])) [] []])
    ∧ ("o1" : String) ≠ "o2" :=
  ⟨rfl, rfl, by decide⟩

theorem cmpDataInit_optional (m : Nat) (n1 : String) :
    cmpDataInit (m + 2) .optional_ (.optional n1)
      = .ok ⟨.optional_, mkHash [.str "optional", .str n1],
             mkHash [.str "optional"]⟩ := rfl

theorem nodeHashes_optional (m : Nat) (n1 : String) (body : List Ast)
    (sb2 : SetRep) (hb2 : buildSet (m + 2) body = .ok sb2) :
    nodeHashes (m + 3) (astOpt n1 body)
      = .ok (mkHash [mkHash [.str "optional", .str n1], sb2.full],
             mkHash [.str "optional"]) := by
  show (buildSet (m + 2) body >>= fun s =>
      (cmpDataInit (m + 2) .optional_ (.optional n1) >>= fun cd =>
      Except.ok (mkHash [cd.full, s.full], cd.part))) = _
  rw [hb2, cmpDataInit_optional]
  rfl

theorem buildSet_optional (m : Nat) (n1 : String) (body : List Ast)
    (sb2 : SetRep) (hb2 : buildSet (m + 2) body = .ok sb2) :
    buildSet (m + 4) [astOpt n1 body]
      = .ok ⟨[⟨.optional_, mkHash [.str "optional"],
            [⟨astOpt n1 body,
              mkHash [mkHash [.str "optional", .str n1], sb2.full]⟩],
            mkHash [mkHash [.str "optional", .str n1], sb2.full]⟩],
          mkHash (sortHashes
            [mkHash [mkHash [.str "optional", .str n1], sb2.full]])⟩ := by
  have e4 : (m + 4 : Nat) = Nat.succ (m + 3) := rfl
  rw [e4, buildSet_singleton, nodeHashes_optional m n1 body sb2 hb2]
  rfl

theorem nodeCompare_sameBody_optional (m : Nat) (n1 n2 : String)
    (body : List Ast) (sb3 : SetRep)
    (hb3 : buildSet (m + 3) body = .ok sb3) :
    nodeCompare (m + 4) (some (astOpt n1 body))
      (some (astOpt n2 body)) = .ok ([], []) := by
  show ((buildSet (m + 3) body >>= fun s => Except.ok (some s))
      >>= fun ls =>
      ((buildSet (m + 3) body >>= fun s => Except.ok (some s))
      >>= fun rs =>
      setCompare (m + 3) (nodeCompare (m + 3)) ls rs)) = _
  rw [hb3]
  show setCompare (m + 3) (nodeCompare (m + 3)) (some sb3) (some sb3) = _
  exact setCompare_self _ _ _

theorem simMatrix_singleton (fu : Nat) (a b : Memb) (s : CmpSim)
    (h : cmpNodeSim fu (some a.ast) (some b.ast) = .ok s) :
    simMatrix fu [a] [b] = .ok [(s, 0, 0)] := by
  show ((cmpNodeSim fu (some a.ast) (some b.ast) >>= fun s =>
      Except.ok (s, 0, 0)) >>= fun y =>
      (Except.ok [y] : Except Unit (List (CmpSim × Nat × Nat)))) = _
  rw [h]
  rfl

theorem simWalk_singleton
    (cmpN : Option Ast → Option Ast → Except Unit CmpRes)
    (s : CmpSim) (a b : Memb) (res : CmpRes)
    (h : cmpN (some a.ast) (some b.ast) = .ok res) :
    simWalk cmpN [(s, 0, 0)] [some a] [some b]
      = .ok ([(a, b, res)], [none], [none]) := by
  show (cmpN (some a.ast) (some b.ast) >>= fun r =>
      ((Except.ok ([], [none], [none]) :
        Except Unit (List (Memb × Memb × CmpRes) × List (Option Memb)
          × List (Option Memb))) >>= fun x =>
        Except.ok ((a, b, r) :: x.1, x.2.1, x.2.2))) = _
  rw [h]
  rfl

theorem memberByFull_singleton_ne (fl : CilFlavor) (pk full F G : HV)
    (a : Ast) (h : G ≠ F) :
    memberByFull (some ⟨fl, pk, [⟨a, F⟩], full⟩) G = none := by
  simp only [memberByFull, membersOf, List.find?]
  rw [decide_eq_false (fun he => h he.symm)]

theorem uniqueMembers_singleton (fl : CilFlavor) (pk f1 f2 F1 F2 : HV)
    (a1 a2 : Ast) (hne : F1 ≠ F2) :
    uniqueMembers (membersOf (some ⟨fl, pk, [⟨a1, F1⟩], f1⟩))
      (some ⟨fl, pk, [⟨a2, F2⟩], f2⟩)
      = [⟨a1, F1⟩] := by
  simp [uniqueMembers, membersOf, List.filter,
    memberByFull_singleton_ne fl pk f2 F2 F1 a2 hne]

theorem subsetCompare_optional_pair (m : Nat) (a1 a2 : Ast) (F1 F2 : HV)
    (sim : CmpSim) (cmpN : Option Ast → Option Ast → Except Unit CmpRes)
    (hFne : F1 ≠ F2)
    (hsim : cmpNodeSim (m + 4) (some a1) (some a2) = .ok sim)
    (hcmp : cmpN (some a1) (some a2) = .ok ([], [])) :
    subsetCompare (m + 4) cmpN
      (some ⟨.optional_, mkHash [.str "optional"], [⟨a1, F1⟩], F1⟩)
      (some ⟨.optional_, mkHash [.str "optional"], [⟨a2, F2⟩], F2⟩)
      = .ok ([], [DiffTree.node (some a1) (some a2) [] []]) := by
  show (if subsetFullOpt
        (some ⟨.optional_, mkHash [.str "optional"], [⟨a1, F1⟩], F1⟩)
      = subsetFullOpt
        (some ⟨.optional_, mkHash [.str "optional"], [⟨a2, F2⟩], F2⟩)
      then (Except.ok ([], []) : Except Unit CmpRes)
      else containerSimCompare (m + 4) cmpN
        (some ⟨.optional_, mkHash [.str "optional"], [⟨a1, F1⟩], F1⟩)
        (some ⟨.optional_, mkHash [.str "optional"], [⟨a2, F2⟩], F2⟩)) = _
  simp only [subsetFullOpt]
  rw [if_neg (fun he => hFne (Option.some.inj he))]
  simp only [containerSimCompare]
  rw [uniqueMembers_singleton .optional_ (mkHash [.str "optional"])
      F1 F2 F1 F2 a1 a2 hFne,
    uniqueMembers_singleton .optional_ (mkHash [.str "optional"])
      F2 F1 F2 F1 a2 a1 (fun he => hFne he.symm)]
  have hno : ¬ (([⟨a1, F1⟩] : List Memb).isEmpty = true
      ∨ ([⟨a2, F2⟩] : List Memb).isEmpty = true) := by simp
  rw [if_neg hno]
  rw [simMatrix_singleton (m + 4) ⟨a1, F1⟩ ⟨a2, F2⟩ sim hsim]
  simp only [Bind.bind, Except.bind, List.insertionSort,
    List.orderedInsert, List.map_cons, List.map_nil]
  rw [simWalk_singleton cmpN sim ⟨a1, F1⟩ ⟨a2, F2⟩ ([], []) hcmp]
  rfl

theorem setCompare_optional_pair (m : Nat) (a1 a2 : Ast) (F1 F2 : HV)
    (sim : CmpSim) (cmpN : Option Ast → Option Ast → Except Unit CmpRes)
    (hFne : F1 ≠ F2)
    (hsim : cmpNodeSim (m + 4) (some a1) (some a2) = .ok sim)
    (hcmp : cmpN (some a1) (some a2) = .ok ([], [])) :
    setCompare (m + 4) cmpN
      (some ⟨[⟨.optional_, mkHash [.str "optional"], [⟨a1, F1⟩], F1⟩],
        mkHash (sortHashes [F1])⟩)
      (some ⟨[⟨.optional_, mkHash [.str "optional"], [⟨a2, F2⟩], F2⟩],
        mkHash (sortHashes [F2])⟩)
      = .ok ([], [DiffTree.node (some a1) (some a2) [] []]) := by
  have hsetne : mkHash (sortHashes [F1]) ≠ mkHash (sortHashes [F2]) := by
    intro he
    have h4 : [F1] = [F2] := HV.mkHash_injective he
    exact hFne (List.cons.inj h4).1
  have hpairsL : subsetComparePairs (m + 4) cmpN
      ((subsetsOf (some ⟨[⟨.optional_, mkHash [.str "optional"],
          [⟨a1, F1⟩], F1⟩], mkHash (sortHashes [F1])⟩)).map
        (fun sub => (some sub,
          subsetByKey (some ⟨[⟨.optional_, mkHash [.str "optional"],
            [⟨a2, F2⟩], F2⟩], mkHash (sortHashes [F2])⟩) sub.partKey)))
      = .ok ([], [DiffTree.node (some a1) (some a2) [] []]) := by
    show (subsetCompare (m + 4) cmpN
        (some ⟨.optional_, mkHash [.str "optional"], [⟨a1, F1⟩], F1⟩)
        (some ⟨.optional_, mkHash [.str "optional"], [⟨a2, F2⟩], F2⟩)
          >>= fun res =>
        ((Except.ok ([], []) : Except Unit CmpRes) >>= fun rres =>
          Except.ok (res.1 ++ rres.1, res.2 ++ rres.2))) = _
    rw [subsetCompare_optional_pair m a1 a2 F1 F2 sim cmpN hFne hsim hcmp]
    rfl
  simp only [setCompare, setFullOpt]
  rw [if_neg (fun he => hsetne (Option.some.inj he))]
  rw [hpairsL]
  rfl

/-- C1 (amended): `cmp_data_optional_init` snapshots the partial hash
*before* absorbing the optional's name, so the partial hash of every
optional is the flavor-name digest alone — any two optionals get equal
partial hashes and land in the same subset.  Consequently, diffing
`(optional n1 BODY)` against `(optional n2 BODY)` with identical
bodies and distinct names emits *zero* records at the root and a
single descent pairing the two renamed optionals (the similarity
strategy of `subset_defs[CIL_OPTIONAL]` matches them), the descent
itself being empty.  The fuel-indexed hypotheses assume the sub-runs
of the engine succeed, as they do on every concrete policy given
enough fuel. -/
theorem C1_optional_rename (m : Nat) (n1 n2 : String) (body : List Ast)
    (sb2 sb3 : SetRep) (sim : CmpSim)
    (hne : n1 ≠ n2)
    (hb2 : buildSet (m + 2) body = .ok sb2)
    (hb3 : buildSet (m + 3) body = .ok sb3)
    (hsim : cmpNodeSim (m + 4) (some (astOpt n1 body))
        (some (astOpt n2 body)) = .ok sim) :
    (∀ c1 c2, cmpDataInit (m + 2) .optional_ (.optional n1) = .ok c1 →
        cmpDataInit (m + 2) .optional_ (.optional n2) = .ok c2 →
        c1.part = c2.part)
    ∧ nodeCompare (m + 5) (some (optRoot n1 body))
        (some (optRoot n2 body))
      = .ok ([], [DiffTree.node (some (astOpt n1 body))
          (some (astOpt n2 body)) [] []]) := by
  constructor
  · intro c1 c2 h1 h2
    rw [cmpDataInit_optional] at h1 h2
    rw [← Except.ok.inj h1, ← Except.ok.inj h2]
  · have hFne : mkHash [mkHash [.str "optional", .str n1], sb2.full]
        ≠ mkHash [mkHash [.str "optional", .str n2], sb2.full] := by
      intro he
      have h1 := HV.mkHash_injective he
      have h2 : mkHash [HV.str "optional", HV.str n1]
          = mkHash [HV.str "optional", HV.str n2] := (List.cons.inj h1).1
      have h3 := HV.mkHash_injective h2
      exact hne (HV.str.inj (List.cons.inj (List.cons.inj h3).2).1)
    have hinner := nodeCompare_sameBody_optional m n1 n2 body sb3 hb3
    show ((buildSet (m + 4) [astOpt n1 body]
        >>= fun s => Except.ok (some s)) >>= fun ls =>
        ((buildSet (m + 4) [astOpt n2 body]
        >>= fun s => Except.ok (some s)) >>= fun rs =>
        setCompare (m + 4) (nodeCompare (m + 4)) ls rs)) = _
    rw [buildSet_optional m n1 body sb2 hb2,
        buildSet_optional m n2 body sb2 hb2]
    simp only [Bind.bind, Except.bind]
    exact setCompare_optional_pair m (astOpt n1 body) (astOpt n2 body)
      (mkHash [mkHash [.str "optional", .str n1], sb2.full])
      (mkHash [mkHash [.str "optional", .str n2], sb2.full])
      sim (nodeCompare (m + 4)) hFne hsim hinner

theorem C1_optional_rename_witness :
    ("o1" : String) ≠ "o2"
    ∧ nodeCompare 7 (some (optRoot "o1" [.mk .type_ (.decl "T") []]))
        (some (optRoot "o2" [.mk .type_ (.decl "T") []]))
      = .ok ([], [DiffTree.node
          (some (astOpt "o1" [.mk .type_ (.decl "T") []]))
          (some (astOpt "o2" [.mk .type_ (.decl "T") []])) [] []]) := by
  have h := C1_optional_rename 2 "o1" "o2" [.mk .type_ (.decl "T") []]
    _ _ _ (by decide) rfl rfl rfl
  exact ⟨by decide, h.2⟩

/-! ### C5: the similarity-matching subset comparator -/

theorem filterMap_id_set_none_perm {α : Type} :
    ∀ (l : List (Option α)) (i : Nat) (x : α),
      l.getD i none = some x →
      (l.filterMap id).Perm (x :: (l.set i none).filterMap id) := by
  intro l
  induction l with
  | nil => intro i x h; simp [List.getD] at h
  | cons a t ih =>
    intro i x h
    cases i with
    | zero =>
      rw [List.getD_cons_zero] at h
      rw [h]
      simp only [List.set_cons_zero, List.filterMap_cons]
      exact List.Perm.refl _
    | succ j =>
      rw [List.getD_cons_succ] at h
      rw [List.set_cons_succ]
      cases a with
      | none =>
        simp only [List.filterMap_cons]
        exact ih j x h
      | some y =>
        simp only [List.filterMap_cons]
        exact ((ih j x h).cons y).trans (List.Perm.swap x y _)

/-- The greedy walk's invariant: every matched pair was compared
successfully, and on each side the matched members together with the
still-unmatched members are exactly the members the walk started from
(so a member is matched at most once). -/
theorem simWalk_spec
    (cmpN : Option Ast → Option Ast → Except Unit CmpRes) :
    ∀ (pairs : List (CmpSim × Nat × Nat)) (al ar : List (Option Memb))
      (ms : List (Memb × Memb × CmpRes)) (al' ar' : List (Option Memb)),
      simWalk cmpN pairs al ar = .ok (ms, al', ar') →
      (∀ t ∈ ms, cmpN (some t.1.ast) (some t.2.1.ast) = .ok t.2.2)
      ∧ (al.filterMap id).Perm
          (ms.map (fun t => t.1) ++ al'.filterMap id)
      ∧ (ar.filterMap id).Perm
          (ms.map (fun t => t.2.1) ++ ar'.filterMap id) := by
  intro pairs
  induction pairs with
  | nil =>
    intro al ar ms al' ar' h
    simp only [simWalk] at h
    have e := Except.ok.inj h
    rw [Prod.mk.injEq, Prod.mk.injEq] at e
    refine ⟨?_, ?_, ?_⟩
    · intro t ht; rw [← e.1] at ht; cases ht
    · rw [← e.1, ← e.2.1]
      simp only [List.map_nil, List.nil_append]
      exact List.Perm.refl _
    · rw [← e.1, ← e.2.2]
      simp only [List.map_nil, List.nil_append]
      exact List.Perm.refl _
  | cons p rest ih =>
    intro al ar ms al' ar' h
    obtain ⟨s, li, ri⟩ := p
    cases hl : (al.get? li).getD none with
    | none =>
      cases hr : (ar.get? ri).getD none with
      | none =>
        simp only [simWalk, List.getD, hl, hr] at h
        exact ih al ar ms al' ar' h
      | some rm =>
        simp only [simWalk, List.getD, hl, hr] at h
        exact ih al ar ms al' ar' h
    | some lm =>
      cases hr : (ar.get? ri).getD none with
      | none =>
        simp only [simWalk, List.getD, hl, hr] at h
        exact ih al ar ms al' ar' h
      | some rm =>
        cases hc : cmpN (some lm.ast) (some rm.ast) with
        | error e =>
          cases e
          simp only [simWalk, List.getD, hl, hr, hc] at h
          exact Except.noConfusion h
        | ok res =>
          cases hw : simWalk cmpN rest (al.set li none) (ar.set ri none)
            with
          | error e =>
            cases e
            simp only [simWalk, List.getD, hl, hr, hc, hw] at h
            exact Except.noConfusion h
          | ok trip =>
            obtain ⟨ms0, al0, ar0⟩ := trip
            simp only [simWalk, List.getD, hl, hr, hc, hw] at h
            have e := Except.ok.inj h
            rw [Prod.mk.injEq, Prod.mk.injEq] at e
            rcases ih _ _ _ _ _ hw with ⟨ihok, ihl, ihr⟩
            refine ⟨?_, ?_, ?_⟩
            · intro t ht
              rw [← e.1] at ht
              cases ht with
              | head => exact hc
              | tail _ hmem => exact ihok t hmem
            · rw [← e.1, ← e.2.1]
              simp only [List.map_cons, List.cons_append]
              exact (filterMap_id_set_none_perm al li lm hl).trans
                (ihl.cons lm)
            · rw [← e.1, ← e.2.2]
              simp only [List.map_cons, List.cons_append]
              exact (filterMap_id_set_none_perm ar ri rm hr).trans
                (ihr.cons rm)

theorem filterMap_id_map_some {α : Type} :
    ∀ l : List α, (l.map some).filterMap id = l
  | [] => rfl
  | a :: t => by
      simp only [List.map_cons, List.filterMap_cons, id]
      rw [filterMap_id_map_some t]

/-- C5 (counterexample): the claim asserts the pairs are processed in
descending rate order.  The rates are IEEE `double`s: the zero sim
`(0,0,0)` — which the engine really computes, e.g. as the pairwise
similarity of two renamed empty optionals — has rate `0/0 = NaN`, on
which `sim_array_item_qsort_cmp` reports a tie against everything
while other pairs still compare strictly, an inconsistent comparison
(no strict weak order), so `qsort` is not guaranteed to produce — nor
is there even well-defined — a descending-rate order. -/
theorem C5_counterexample :
    simMatrix 5 [⟨astOpt "a" [], mkHash [.str "A"]⟩]
        [⟨astOpt "b" [], mkHash [.str "B"]⟩]
      = .ok [(⟨0, 0, 0⟩, 0, 0)]
    ∧ CmpSim.rateDbl ⟨0, 0, 0⟩ = none
    ∧ simArrayQsortCmp ⟨1, 0, 0⟩ ⟨0, 0, 0⟩ = 0
    ∧ simArrayQsortCmp ⟨0, 0, 0⟩ ⟨0, 1, 1⟩ = 0
    ∧ simArrayQsortCmp ⟨1, 0, 0⟩ ⟨0, 1, 1⟩ = -1 := by
  refine ⟨rfl, rfl, ?_, ?_, ?_⟩
  · simp [simArrayQsortCmp, cmpSimCmp, CmpSim.rateDbl, CmpSim.total]
  · simp [simArrayQsortCmp, cmpSimCmp, CmpSim.rateDbl, CmpSim.total]
  · norm_num [simArrayQsortCmp, cmpSimCmp, CmpSim.rateDbl,
      CmpSim.total]

/-- C5 (amended): the similarity-matching subset strategy
(`cmp_subset_container_sim_compare`), in the clauses that do not
depend on the pair order or on the similarity values — the program's
order is unspecified (`qsort` with a comparator that is inconsistent
on reachable NaN rates, see the counterexample) and its similarity
values can be corrupted by the uninitialized-sim read of
`cmp_set_sim`, so neither is asserted.  What holds for every
processing order: if either unique-member list is empty, every unique
member is emitted directly as a LEFT or RIGHT record with no descent;
otherwise the result is a greedy walk over *some* pair list in which
a pair is matched only when both endpoints are still unmatched, every
matched pair was compared recursively into a fresh child diff-tree
node, matched members together with leftover members partition each
side's unique members (each member is matched at most once), and the
records are exactly the leftover left members as LEFT followed by the
leftover right members as RIGHT. -/
theorem C5_sim_walk_discipline (fu : Nat)
    (cmpN : Option Ast → Option Ast → Except Unit CmpRes)
    (l r : Option Subset) (res : CmpRes)
    (h : containerSimCompare fu cmpN l r = .ok res) :
    (uniqueMembers (membersOf l) r = []
        ∨ uniqueMembers (membersOf r) l = [] →
      res = ((uniqueMembers (membersOf l) r).map
            (fun m => (⟨.left, m.ast⟩ : DRec))
          ++ (uniqueMembers (membersOf r) l).map
            (fun m => (⟨.right, m.ast⟩ : DRec)), []))
    ∧ (uniqueMembers (membersOf l) r ≠ [] →
       uniqueMembers (membersOf r) l ≠ [] →
      ∃ pairs ms al' ar',
        simWalk cmpN pairs
            ((uniqueMembers (membersOf l) r).map some)
            ((uniqueMembers (membersOf r) l).map some)
            = .ok (ms, al', ar')
        ∧ (∀ t ∈ ms, cmpN (some t.1.ast) (some t.2.1.ast) = .ok t.2.2)
        ∧ (uniqueMembers (membersOf l) r).Perm
            (ms.map (fun t => t.1) ++ al'.filterMap id)
        ∧ (uniqueMembers (membersOf r) l).Perm
            (ms.map (fun t => t.2.1) ++ ar'.filterMap id)
        ∧ res = ((al'.filterMap id).map
              (fun m => (⟨.left, m.ast⟩ : DRec))
            ++ (ar'.filterMap id).map
              (fun m => (⟨.right, m.ast⟩ : DRec)),
            ms.map (fun t => DiffTree.node (some t.1.ast)
              (some t.2.1.ast) t.2.2.1 t.2.2.2))) := by
  simp only [containerSimCompare] at h
  constructor
  · intro hemp
    have hc : (uniqueMembers (membersOf l) r).isEmpty = true
        ∨ (uniqueMembers (membersOf r) l).isEmpty = true := by
      rcases hemp with he | he
      · exact Or.inl (by rw [he]; rfl)
      · exact Or.inr (by rw [he]; rfl)
    rw [if_pos hc] at h
    exact (Except.ok.inj h).symm
  · intro hne1 hne2
    have hc : ¬ ((uniqueMembers (membersOf l) r).isEmpty = true
        ∨ (uniqueMembers (membersOf r) l).isEmpty = true) := by
      rintro (he | he)
      · exact hne1 (List.isEmpty_iff.mp he)
      · exact hne2 (List.isEmpty_iff.mp he)
    rw [if_neg hc] at h
    rcases exceptBind_ok.mp h with ⟨sims, hmat, h2⟩
    rcases exceptBind_ok.mp h2 with ⟨trip, hwalk, h3⟩
    obtain ⟨ms, al', ar'⟩ := trip
    rcases simWalk_spec cmpN _ _ _ _ _ _ hwalk with ⟨hok, hpl, hpr⟩
    rw [filterMap_id_map_some] at hpl hpr
    exact ⟨List.insertionSort simDescLE sims, ms, al', ar', hwalk,
      hok, hpl, hpr, (Except.ok.inj h3).symm⟩

/-- A left subset holding one optional, for exercising the similarity
strategy. -/
def c5subL : Subset :=
  ⟨.optional_, mkHash [.str "optional"],
   [⟨astOpt "o1" [.mk .type_ (.decl "T") []], mkHash [.str "L1"]⟩],
   mkHash [.str "L"]⟩

/-- The matching right subset with the renamed optional. -/
def c5subR : Subset :=
  ⟨.optional_, mkHash [.str "optional"],
   [⟨astOpt "o2" [.mk .type_ (.decl "T") []], mkHash [.str "R1"]⟩],
   mkHash [.str "R"]⟩

theorem C5_sim_walk_discipline_witness :
    ∃ pairs ms al' ar',
      simWalk (nodeCompare 6) pairs
          ((uniqueMembers (membersOf (some c5subL)) (some c5subR)).map
            some)
          ((uniqueMembers (membersOf (some c5subR)) (some c5subL)).map
            some)
          = .ok (ms, al', ar')
      ∧ (∀ t ∈ ms, nodeCompare 6 (some t.1.ast) (some t.2.1.ast)
          = .ok t.2.2)
      ∧ (uniqueMembers (membersOf (some c5subL)) (some c5subR)).Perm
          (ms.map (fun t => t.1) ++ al'.filterMap id)
      ∧ (uniqueMembers (membersOf (some c5subR)) (some c5subL)).Perm
          (ms.map (fun t => t.2.1) ++ ar'.filterMap id)
      ∧ (([], [DiffTree.node
            (some (astOpt "o1" [.mk .type_ (.decl "T") []]))
            (some (astOpt "o2" [.mk .type_ (.decl "T") []])) [] []])
           : CmpRes)
          = ((al'.filterMap id).map
              (fun m => (⟨.left, m.ast⟩ : DRec))
            ++ (ar'.filterMap id).map
              (fun m => (⟨.right, m.ast⟩ : DRec)),
            ms.map (fun t => DiffTree.node (some t.1.ast)
              (some t.2.1.ast) t.2.2.1 t.2.2.2)) := by
  have hrun : containerSimCompare 6 (nodeCompare 6) (some c5subL)
      (some c5subR)
      = .ok ([], [DiffTree.node
          (some (astOpt "o1" [.mk .type_ (.decl "T") []]))
          (some (astOpt "o2" [.mk .type_ (.decl "T") []])) [] []]) := rfl
  exact (C5_sim_walk_discipline 6 (nodeCompare 6) (some c5subL)
      (some c5subR) _ hrun).2
    (fun he => List.noConfusion he) (fun he => List.noConfusion he)

/-! ### C6: reordering expression operands -/

/-- The list does not start with a `CIL_OP` item (so `hash_cil_expr`
treats every element as an operand). -/
def headNotOp : List CilExprItem → Prop
  | (.op _) :: _ => False
  | _ => True

mutual

/-- "The same expression item": equal outright, or the same sub-list
flavor with recursively reordered operands. -/
inductive ItemEq : CilExprItem → CilExprItem → Prop where
  | refl (i : CilExprItem) : ItemEq i i
  | sub (f : Nat) (l1 l2 : List CilExprItem) :
      ExprListPerm l1 l2 → ItemEq (.sub f l1) (.sub f l2)

/-- Pointwise `ItemEq` on operand lists. -/
inductive ItemsEq : List CilExprItem → List CilExprItem → Prop where
  | nil : ItemsEq [] []
  | cons {a b : CilExprItem} {l1 l2 : List CilExprItem} :
      ItemEq a b → ItemsEq l1 l2 → ItemsEq (a :: l1) (b :: l2)

/-- One operand list is the other with its items (recursively)
reordered: pointwise-equivalent up to a permutation. -/
inductive OperandsPerm : List CilExprItem → List CilExprItem → Prop where
  | mk (l1 mid l2 : List CilExprItem) :
      ItemsEq l1 mid → mid.Perm l2 → OperandsPerm l1 l2

/-- "The same expression with its operand items reordered": the
optional leading operator is kept in place, the operands that follow
it (at this level or inside any sub-expression) may be permuted. -/
inductive ExprListPerm : List CilExprItem → List CilExprItem → Prop where
  | withOp (n : Nat) (t1 t2 : List CilExprItem) :
      OperandsPerm t1 t2 → ExprListPerm (.op n :: t1) (.op n :: t2)
  | noOp (l1 l2 : List CilExprItem) :
      headNotOp l1 → headNotOp l2 → OperandsPerm l1 l2 →
      ExprListPerm l1 l2

end

theorem exceptMap_cons {α β : Type} (f : α → Except Unit β) (x : α)
    (t : List α) :
    exceptMap f (x :: t)
      = (f x >>= fun y => exceptMap f t >>= fun ys =>
          Except.ok (y :: ys)) := rfl

/-- A non-operator head puts `hash_cil_expr` in its "all operands"
branch. -/
theorem hashCilExpr_notOp (g lf : Nat) (a : CilExprItem)
    (t : List CilExprItem) (h : headNotOp (a :: t)) :
    hashCilExpr (Nat.succ g) lf (a :: t)
      = (exceptMap (hashExprItem g) (a :: t) >>= fun hs =>
          Except.ok (mkHash ([.str "<expr>", .num lf]
            ++ sortHashes hs))) := by
  cases a with
  | op n => exact False.elim h
  | str s => rfl
  | sub f i => rfl
  | consOp n => rfl

/-- Mapping a fallible function over two permuted lists: either both
runs fail, or both succeed with permuted outputs. -/
theorem exceptMap_perm {α β : Type} (f : α → Except Unit β)
    {l1 l2 : List α} (h : l1.Perm l2) :
    (exceptMap f l1 = .error () ∧ exceptMap f l2 = .error ())
    ∨ ∃ r1 r2, exceptMap f l1 = .ok r1 ∧ exceptMap f l2 = .ok r2
        ∧ r1.Perm r2 := by
  induction h with
  | nil => exact Or.inr ⟨[], [], rfl, rfl, .nil⟩
  | cons x h ih =>
    cases hfx : f x with
    | error e =>
      cases e
      exact Or.inl ⟨by simp [exceptMap_cons, hfx, Bind.bind, Except.bind],
        by simp [exceptMap_cons, hfx, Bind.bind, Except.bind]⟩
    | ok y =>
      rcases ih with ⟨h1, h2⟩ | ⟨r1, r2, h1, h2, hp⟩
      · exact Or.inl
          ⟨by simp [exceptMap_cons, hfx, h1, Bind.bind, Except.bind],
           by simp [exceptMap_cons, hfx, h2, Bind.bind, Except.bind]⟩
      · exact Or.inr ⟨y :: r1, y :: r2,
          by simp [exceptMap_cons, hfx, h1, Bind.bind, Except.bind],
          by simp [exceptMap_cons, hfx, h2, Bind.bind, Except.bind],
          .cons y hp⟩
  | swap x y l =>
    cases hfy : f y with
    | error e =>
      cases e
      cases hfx : f x with
      | error e2 =>
        cases e2
        exact Or.inl
          ⟨by simp [exceptMap_cons, hfx, hfy, Bind.bind, Except.bind],
           by simp [exceptMap_cons, hfx, hfy, Bind.bind, Except.bind]⟩
      | ok vx =>
        exact Or.inl
          ⟨by simp [exceptMap_cons, hfx, hfy, Bind.bind, Except.bind],
           by simp [exceptMap_cons, hfx, hfy, Bind.bind, Except.bind]⟩
    | ok vy =>
      cases hfx : f x with
      | error e2 =>
        cases e2
        exact Or.inl
          ⟨by simp [exceptMap_cons, hfx, hfy, Bind.bind, Except.bind],
           by simp [exceptMap_cons, hfx, hfy, Bind.bind, Except.bind]⟩
      | ok vx =>
        cases hrest : exceptMap f l with
        | error e3 =>
          cases e3
          exact Or.inl
            ⟨by simp [exceptMap_cons, hfx, hfy, hrest, Bind.bind,
                Except.bind],
             by simp [exceptMap_cons, hfx, hfy, hrest, Bind.bind,
                Except.bind]⟩
        | ok rs =>
          exact Or.inr ⟨vy :: vx :: rs, vx :: vy :: rs,
            by simp [exceptMap_cons, hfx, hfy, hrest, Bind.bind,
              Except.bind],
            by simp [exceptMap_cons, hfx, hfy, hrest, Bind.bind,
              Except.bind],
            .swap vx vy rs⟩
  | trans h1 h2 ih1 ih2 =>
    rcases ih1 with ⟨ha, hb⟩ | ⟨r1, r2, ha, hb, hp⟩
    · rcases ih2 with ⟨hc, hd⟩ | ⟨s1, s2, hc, hd, hq⟩
      · exact Or.inl ⟨ha, hd⟩
      · rw [hb] at hc; cases hc
    · rcases ih2 with ⟨hc, hd⟩ | ⟨s1, s2, hc, hd, hq⟩
      · rw [hb] at hc; cases hc
      · rw [hb] at hc
        exact Or.inr ⟨r1, s2, ha, hd,
          hp.trans (Except.ok.inj hc ▸ hq)⟩

/-- The three mutually-inductive facts behind C6, proved together by
strong induction on the size of the left-hand side. -/
theorem exprPerm_pack : ∀ N : Nat,
    (∀ a b : CilExprItem, sizeOf a ≤ N → ItemEq a b → ∀ fu,
      hashExprItem fu a = hashExprItem fu b)
    ∧ (∀ l1 l2 : List CilExprItem, sizeOf l1 ≤ N → ItemsEq l1 l2 → ∀ fu,
      exceptMap (hashExprItem fu) l1 = exceptMap (hashExprItem fu) l2)
    ∧ (∀ l1 l2 : List CilExprItem, sizeOf l1 ≤ N → ExprListPerm l1 l2 →
      ∀ fu lf, hashCilExpr fu lf l1 = hashCilExpr fu lf l2) := by
  intro N
  induction N using Nat.strong_induction_on with
  | _ N IH =>
  have hItems : ∀ l1 l2 : List CilExprItem, sizeOf l1 ≤ N →
      ItemsEq l1 l2 → ∀ fu,
      exceptMap (hashExprItem fu) l1 = exceptMap (hashExprItem fu) l2 := by
    intro l1 l2 hsz h fu
    cases h with
    | nil => rfl
    | cons hab ht =>
      rename_i a b t1 t2
      have hsa : sizeOf a < N := by
        have := List.cons.sizeOf_spec a t1
        omega
      have hst : sizeOf t1 < N := by
        have := List.cons.sizeOf_spec a t1
        omega
      have h1 : hashExprItem fu a = hashExprItem fu b :=
        (IH (sizeOf a) hsa).1 a b le_rfl hab fu
      have h2 : exceptMap (hashExprItem fu) t1
          = exceptMap (hashExprItem fu) t2 :=
        (IH (sizeOf t1) hst).2.1 t1 t2 le_rfl ht fu
      rw [exceptMap_cons, exceptMap_cons, h1, h2]
  have hOper : ∀ l1 l2 : List CilExprItem, sizeOf l1 ≤ N →
      OperandsPerm l1 l2 → ∀ fu,
      (exceptMap (hashExprItem fu) l1 = .error ()
        ∧ exceptMap (hashExprItem fu) l2 = .error ())
      ∨ ∃ r1 r2, exceptMap (hashExprItem fu) l1 = .ok r1
          ∧ exceptMap (hashExprItem fu) l2 = .ok r2
          ∧ sortHashes r1 = sortHashes r2 := by
    intro l1 l2 hsz h fu
    cases h with
    | mk _ mid _ hitems hperm =>
      have hmid := hItems l1 mid hsz hitems fu
      rcases exceptMap_perm (hashExprItem fu) hperm with
        ⟨h1, h2⟩ | ⟨r1, r2, h1, h2, hp⟩
      · exact Or.inl ⟨by rw [hmid, h1], h2⟩
      · exact Or.inr ⟨r1, r2, by rw [hmid, h1], h2,
          HV.sortHashes_eq_of_perm hp⟩
  constructor
  · intro a b hsz h fu
    cases h with
    | refl i => rfl
    | sub f l1 l2 hperm =>
      have hsl : sizeOf l1 < N := by
        have := CilExprItem.sub.sizeOf_spec f l1
        omega
      cases fu with
      | zero => rfl
      | succ g =>
        show hashCilExpr g f l1 = hashCilExpr g f l2
        exact (IH (sizeOf l1) hsl).2.2 l1 l2 le_rfl hperm g f
  constructor
  · exact hItems
  · intro l1 l2 hsz h fu lf
    cases h with
    | withOp n t1 t2 hop =>
      cases fu with
      | zero => rfl
      | succ g =>
        have hst : sizeOf t1 ≤ N := by
          have := List.cons.sizeOf_spec (CilExprItem.op n) t1
          omega
        have hred : ∀ l : List CilExprItem,
            hashCilExpr (Nat.succ g) lf (CilExprItem.op n :: l)
              = (exceptMap (hashExprItem g) l >>= fun hs =>
                  Except.ok (mkHash ([.str "<expr>", .num lf]
                    ++ [.str "<expr_op>", .num n] ++ sortHashes hs))) :=
          fun _ => rfl
        rw [hred t1, hred t2]
        rcases hOper t1 t2 hst hop g with ⟨h1, h2⟩ | ⟨r1, r2, h1, h2, hs⟩
        · rw [h1, h2]
        · rw [h1, h2]
          show Except.ok (mkHash (_ ++ _ ++ sortHashes r1)) = _
          rw [hs] <;> rfl
    | noOp l1 l2 hh1 hh2 hop =>
      cases fu with
      | zero => rfl
      | succ g =>
        cases hop with
        | mk _ mid _ hitems hperm =>
        cases l1 with
        | nil =>
          cases hitems
          have : l2 = [] := hperm.symm.eq_nil
          rw [this]
        | cons a t1 =>
          cases l2 with
          | nil =>
            have : mid = [] := hperm.eq_nil
            rw [this] at hitems
            cases hitems
          | cons b t2 =>
            have hop' : OperandsPerm (a :: t1) (b :: t2) :=
              .mk _ mid _ hitems hperm
            rw [hashCilExpr_notOp g lf a t1 hh1,
              hashCilExpr_notOp g lf b t2 hh2]
            rcases hOper (a :: t1) (b :: t2) hsz hop' g with
              ⟨h1, h2⟩ | ⟨r1, r2, h1, h2, hs⟩
            · rw [h1, h2]
            · rw [h1, h2]
              show Except.ok (mkHash (_ ++ sortHashes r1)) = _
              rw [hs] <;> rfl

/-- C6: the expression hash is invariant under (recursive) permutation
of the operand items that follow the optional leading operator:
related expression lists hash identically, byte for byte. -/
theorem C6_expr_hash_perm_invariant (fu lf : Nat)
    (l1 l2 : List CilExprItem) (h : ExprListPerm l1 l2) :
    hashCilExpr fu lf l1 = hashCilExpr fu lf l2 :=
  (exprPerm_pack (sizeOf l1)).2.2 l1 l2 le_rfl h fu lf

/-- The two operand lists of scenario S2:
`(allow A B (C (D E)))` vs `(allow A B (C (E D)))` — the inner
permission expression reorders `D` and `E`. -/
def c6l1 : List CilExprItem := [.str "C", .sub 7 [.str "D", .str "E"]]

def c6l2 : List CilExprItem := [.str "C", .sub 7 [.str "E", .str "D"]]

theorem C6_expr_hash_perm_invariant_witness :
    hashCilExpr 9 5 c6l1 = hashCilExpr 9 5 c6l2
    ∧ (hashCilExpr 9 5 c6l1).isOk = true := by
  have hinner : ExprListPerm [.str "D", .str "E"] [.str "E", .str "D"] :=
    .noOp _ _ trivial trivial
      (.mk _ [CilExprItem.str "D", CilExprItem.str "E"] _
        (.cons (.refl _) (.cons (.refl _) .nil))
        (List.Perm.swap (CilExprItem.str "E") (CilExprItem.str "D") []))
  have h : ExprListPerm c6l1 c6l2 :=
    .noOp _ _ trivial trivial
      (.mk _ c6l2 _
        (.cons (.refl _) (.cons (.sub 7 _ _ hinner) .nil))
        (List.Perm.refl _))
  exact ⟨C6_expr_hash_perm_invariant 9 5 c6l1 c6l2 h, by decide⟩

end Cildiff
